import Mathlib

/-!
Shallow embedding of the rickover static-site content pipeline
(scripts/pipeline.py, generate_pages.py, cleanup_posts.py,
cleanup_summaries.py, gemini_ocr.py, gemini_html_cleanup.py,
add_themes.py).

Strings are modelled as `List Char`.  Character classes follow the ASCII
fragment of Python semantics (`\w`, `\s`, `str.lower`, `str.upper`,
`str.isalpha`): the scripts' regexes are applied to ASCII OCR text, and
each character class is written out explicitly below in terms of the
character's code point so that all reasoning stays in `Nat`.
-/

abbrev Str := List Char

/-- Apostrophe character (code point 39). -/
def sq39 : Char := Char.ofNat 39

/-- Backtick character (code point 96). -/
def bq96 : Char := Char.ofNat 96

/-- ASCII uppercase letter, `[A-Z]`. -/
def isUpperA (c : Char) : Prop := 65 ≤ c.toNat ∧ c.toNat ≤ 90

/-- ASCII lowercase letter, `[a-z]`. -/
def isLowerA (c : Char) : Prop := 97 ≤ c.toNat ∧ c.toNat ≤ 122

/-- ASCII digit, `[0-9]`. -/
def isDigitA (c : Char) : Prop := 48 ≤ c.toNat ∧ c.toNat ≤ 57

/-- ASCII letter, `[A-Za-z]` (Python `str.isalpha` on ASCII input,
and the regex class `[A-Za-z]`). -/
def isAlphaA (c : Char) : Prop := isUpperA c ∨ isLowerA c

instance (c : Char) : Decidable (isUpperA c) := by unfold isUpperA; infer_instance

instance (c : Char) : Decidable (isLowerA c) := by unfold isLowerA; infer_instance

instance (c : Char) : Decidable (isDigitA c) := by unfold isDigitA; infer_instance

instance (c : Char) : Decidable (isAlphaA c) := by unfold isAlphaA; infer_instance

/-- Python regex `\s` (ASCII): space, tab, newline, carriage return,
vertical tab, form feed.  Also the set stripped by `str.strip()`. -/
def isPySpace (c : Char) : Bool :=
  decide (c = ' ' ∨ c = '\t' ∨ c = '\n' ∨ c = '\r' ∨ c = Char.ofNat 11 ∨ c = Char.ofNat 12)

/-- Python regex `\w` (ASCII): `[A-Za-z0-9_]`. -/
def isWordChar (c : Char) : Bool :=
  decide (isAlphaA c) || decide (isDigitA c) || decide (c = '_')

/-- Python `str.lower` on one character (ASCII fragment; identical to the
branch structure of `Char.toLower` in Lean core). -/
def pyToLower (c : Char) : Char :=
  if isUpperA c then Char.ofNat (c.toNat + 32) else c

/-- Python `str.upper` on one character (ASCII fragment). -/
def pyToUpper (c : Char) : Char :=
  if isLowerA c then Char.ofNat (c.toNat - 32) else c

/-- Replace each maximal run of characters satisfying `p` by a single
hyphen; embeds `re.sub(r"[\s_]+", "-", s)` and `re.sub(r"-+", "-", s)`
from `slugify`.  The flag records whether the scan is inside a run. -/
def collapseRuns (p : Char → Bool) : Bool → List Char → List Char
  | _, [] => []
  | inRun, c :: cs =>
    if p c then
      (if inRun then collapseRuns p true cs else '-' :: collapseRuns p true cs)
    else c :: collapseRuns p false cs

/-- Drop characters satisfying `p` from both ends; embeds Python
`str.strip(chars)` for a one-character `chars` set. -/
def stripEnds (p : Char → Bool) (l : List Char) : List Char :=
  ((l.dropWhile p).reverse.dropWhile p).reverse

/-- Hyphen test used by `slugify`'s `strip("-")` and `re.sub(r"-+", ...)`. -/
def isHyphen (c : Char) : Bool := decide (c = '-')

/-- Space-or-underscore test used by `slugify`'s `re.sub(r"[\s_]+", "-", s)`. -/
def isSpaceUnd (c : Char) : Bool := isPySpace c || decide (c = '_')

/-- Character kept by `slugify`'s `re.sub(r"[^\w\s-]", "", s)`. -/
def slugKeep (c : Char) : Bool := isWordChar c || isPySpace c || isHyphen c

/-- The `slugify` of `scripts/pipeline.py` / `scripts/generate_pages.py`
before the final `[:120]` truncation: lower-case, drop `[^\w\s-]`,
collapse `[\s_]+` and `-+` to single hyphens, and `strip("-")`. -/
def slugifyCore (t : Str) : Str :=
  stripEnds isHyphen
    (collapseRuns isHyphen false
      (collapseRuns isSpaceUnd false
        ((t.map pyToLower).filter slugKeep)))

/-- `slugify(title)` from `scripts/pipeline.py` lines 45-51 and
`scripts/generate_pages.py` lines 14-19 (both scripts define it
identically). -/
def slugify (t : Str) : Str := (slugifyCore t).take 120

/-- A manifest record (one JSON object of `manifest.json`).  The fields
the scripts read or write are typed; `extra` stands for any remaining
key/value pairs of the record. -/
structure Entry where
  title : Option Str
  year : Option Int
  typ : Option Str
  summary : Option Str
  source : Option Str
  filePdf : Option Str
  fileOCR : Option Str
  blogPage : Option Str
  themes : Option (List Str)
  gemini : Bool
  extra : List (Str × Str)
  deriving DecidableEq, Repr

/-- Python `entry.get(key, default)` for an optional string field. -/
def getD (o : Option Str) (d : Str) : Str := o.getD d

/-- The post path `"posts/" + slug + ".html"`. -/
def postsPath (slug : Str) : Str := "posts/".toList ++ slug ++ ".html".toList

/-- The post files written by the loop of `generate_pages.main`
(lines 280-287): one `write_text` per manifest entry, at
`posts/<slugify(entry.get("Title", "Untitled"))>.html`, unconditionally. -/
def generatePagesWrites (manifest : List Entry) : List Str :=
  manifest.map (fun e => postsPath (slugify (getD e.title ("Untitled".toList))))

/-- The manifest written back by `generate_pages.main` (lines 297-303):
each entry gets `blog_page = "posts/" + slugify(entry.get("Title",
"untitled")) + ".html"`; all other fields are untouched. -/
def generatePagesManifest (manifest : List Entry) : List Entry :=
  manifest.map (fun e =>
    { e with blogPage := some (postsPath (slugify (getD e.title ("untitled".toList)))) })

/-!  Pipeline (`scripts/pipeline.py` main loop, lines 414-489). -/

/-- Per-document environment facts the pipeline run observes: whether the
post and OCR text files already exist (`post_path.exists() and
txt_path.exists()`), whether the PDF download succeeds, the PDF's page
count, and the OCR text produced. -/
structure Env where
  cached : Bool
  downloadOk : Bool
  pages : Nat
  ocrText : Str
  deriving DecidableEq, Repr

/-- Command-line configuration of `pipeline.main`: `--max-pages`
(0 = no limit) and `--types` (`None` when absent). -/
structure Config where
  maxPages : Nat
  types : Option (List Str)
  deriving DecidableEq, Repr

/-- The type filter `if args.types and doc_type not in args.types` of
`pipeline.main` (line 420); an empty `--types` list is falsy in Python
and filters nothing. -/
def typeSkip (cfg : Config) (e : Entry) : Bool :=
  match cfg.types with
  | none => false
  | some l => decide (l ≠ []) && decide (getD e.typ [] ∉ l)

/-- The page-count check `if args.max_pages: ... if pages > args.max_pages`
of `pipeline.main` (lines 456-458). -/
def pagesSkip (cfg : Config) (env : Env) : Bool :=
  decide (cfg.maxPages ≠ 0) && decide (cfg.maxPages < env.pages)

/-- Events of one pipeline run, used to state the ordering of the steps:
fetching a PDF (`download_pdf`), OCRing it (`ocr_pdf`), regex-processing
the text (`format_ocr_text` inside `generate_post_html`), writing the post
page (`post_path.write_text`), and rewriting `manifest.json`. -/
inductive Ev where
  | fetch (i : Nat)
  | ocr (i : Nat)
  | clean (i : Nat)
  | template (i : Nat)
  | rewriteManifest
  deriving DecidableEq, Repr

/-- The events the pipeline main loop performs for manifest entry `i`
(pipeline.py lines 414-476), following the code's branch order: type
filter, missing PDF URL, cached post+text, failed download, page-count
skip, and the full fetch / OCR / clean / template path. -/
def entryEvents (cfg : Config) (i : Nat) (e : Entry) (env : Env) : List Ev :=
  if typeSkip cfg e then []
  else if getD e.filePdf [] = [] then []
  else if env.cached then [Ev.clean i, Ev.template i]
  else if !env.downloadOk then []
  else if pagesSkip cfg env then [Ev.fetch i]
  else [Ev.fetch i, Ev.ocr i, Ev.clean i, Ev.template i]

/-- The manifest entry appended to `updated_manifest` for one input entry
(every branch of the loop body appends the entry exactly once, either with
`blog_page = entry.get("blog_page", "")` or with the freshly generated
post path). -/
def entryUpdate (cfg : Config) (e : Entry) (env : Env) : Entry :=
  if typeSkip cfg e then { e with blogPage := some (getD e.blogPage []) }
  else if getD e.filePdf [] = [] then { e with blogPage := some (getD e.blogPage []) }
  else if env.cached then
    { e with blogPage := some (postsPath (slugify (getD e.title ("Untitled".toList)))) }
  else if !env.downloadOk then { e with blogPage := some (getD e.blogPage []) }
  else if pagesSkip cfg env then { e with blogPage := some (getD e.blogPage []) }
  else { e with blogPage := some (postsPath (slugify (getD e.title ("Untitled".toList)))) }

/-- Event trace of `pipeline.main` from entry index `i` on: the per-entry
events in manifest order, followed by the single `manifest.json` rewrite
that happens after the loop (lines 482-484). -/
def pipelineTraceAux (cfg : Config) : Nat → List (Entry × Env) → List Ev
  | _, [] => [Ev.rewriteManifest]
  | i, (e, env) :: rest => entryEvents cfg i e env ++ pipelineTraceAux cfg (i + 1) rest

/-- Event trace of a full `pipeline.main` run. -/
def pipelineTrace (cfg : Config) (m : List (Entry × Env)) : List Ev :=
  pipelineTraceAux cfg 0 m

/-- The `updated_manifest` written by `pipeline.main` (lines 482-484). -/
def pipelineManifest (cfg : Config) (m : List (Entry × Env)) : List Entry :=
  m.map (fun p => entryUpdate cfg p.1 p.2)

/-!  `format_ocr_text` (`scripts/pipeline.py` lines 111-131) and the
string helpers it relies on. -/

/-- Python `str.replace(pat, rep)` for a one-character pattern. -/
def replaceChar (c : Char) (rep : List Char) : List Char → List Char
  | [] => []
  | x :: xs => if x = c then rep ++ replaceChar c rep xs else x :: replaceChar c rep xs

/-- Fuelled scan for Python `str.replace(pat, rep)` with a multi-character
pattern: leftmost non-overlapping matches, scanning resumes after each
replacement.  The fuel only bounds the recursion; `replaceStr` passes the
input length, which suffices because every step consumes at least one
character. -/
def replaceStrF (pat rep : List Char) : Nat → List Char → List Char
  | 0, l => l
  | _ + 1, [] => []
  | fuel + 1, c :: rest =>
    if pat.isPrefixOf (c :: rest) then
      rep ++ replaceStrF pat rep fuel ((c :: rest).drop pat.length)
    else c :: replaceStrF pat rep fuel rest

/-- Python `str.replace(pat, rep)` (non-empty `pat`). -/
def replaceStr (pat rep l : List Char) : List Char :=
  replaceStrF pat rep l.length l

/-- Python `html.escape(s)` (quote=True): `&`, `<`, `>`, `"`, `'`
replaced in this order, as in the CPython implementation. -/
def escapeHtml (l : List Char) : List Char :=
  replaceChar sq39 ("&#x27;".toList)
    (replaceChar '"' ("&quot;".toList)
      (replaceChar '>' ("&gt;".toList)
        (replaceChar '<' ("&lt;".toList)
          (replaceChar '&' ("&amp;".toList) l))))

/-- `text.replace("\n", "<br>")` from `format_ocr_text`. -/
def brReplace (l : List Char) : List Char := replaceChar '\n' ("<br>".toList) l

/-- Python `str.strip()` (strip ASCII whitespace from both ends). -/
def pyStrip (l : List Char) : List Char := stripEnds isPySpace l

/-- Index of the last newline in a list, if any. -/
def lastNl : List Char → Option Nat
  | [] => none
  | c :: rest =>
    match lastNl rest with
    | some i => some (i + 1)
    | none => if c = '\n' then some 0 else none

/-- Fuelled scan for `re.split(r"\n\s*\n", s)`: a delimiter is a newline,
a greedy run of `\s`, and a final newline inside that run (the regex
backtracks from the end of the run to the last newline in it); scanning
resumes after the delimiter.  `acc` holds the current piece reversed. -/
def splitParasF : Nat → List Char → List Char → List (List Char)
  | 0, acc, l => [acc.reverse ++ l]
  | _ + 1, acc, [] => [acc.reverse]
  | fuel + 1, acc, c :: rest =>
    if c = '\n' then
      match lastNl (rest.takeWhile isPySpace) with
      | some k => acc.reverse :: splitParasF fuel [] (rest.drop (k + 1))
      | none => splitParasF fuel (c :: acc) rest
    else splitParasF fuel (c :: acc) rest

/-- `re.split(r"\n\s*\n", s)` from `format_ocr_text`. -/
def splitParas (l : List Char) : List (List Char) := splitParasF l.length [] l

/-- Python `"\n".join(parts)` / `" ".join(parts)`. -/
def joinSep (sep : Char) : List Str → Str
  | [] => []
  | [x] => x
  | x :: y :: xs => x ++ sep :: joinSep sep (y :: xs)

/-- The fixed placeholder paragraph returned by `format_ocr_text` for
empty or whitespace-only input (pipeline.py line 114). -/
def ocrPlaceholder : Str :=
  "<p class=".toList ++ [sq39] ++ "text-gray-500 italic".toList ++ [sq39]
    ++ ">OCR text not available.</p>".toList

/-- The literal `"--- Page Break ---"` replaced by `"\n\n"`. -/
def pageBreakStr : Str := "--- Page Break ---".toList

/-- The list of `<p>...</p>` parts built by `format_ocr_text`'s loop:
paragraphs from the split, stripped, empty ones skipped, HTML-escaped,
inner newlines turned into `<br>`. -/
def formatParts (raw : Str) : List Str :=
  (splitParas (replaceStr pageBreakStr ("\n\n".toList) raw)).filterMap (fun p =>
    let t := pyStrip p
    if t = [] then none
    else some ("<p>".toList ++ brReplace (escapeHtml t) ++ "</p>".toList))

/-- `format_ocr_text(raw_text)` from `scripts/pipeline.py` lines 111-131. -/
def format_ocr_text (raw : Str) : Str :=
  if pyStrip raw = [] then ocrPlaceholder else joinSep '\n' (formatParts raw)

/-- Checks that every occurrence of a left angle bracket in a body opens
the literal `<br>` inserted by `format_ocr_text`, so the body contains no
other HTML tag openers. -/
def ltOnlyBr : List Char → Bool
  | [] => true
  | c :: rest =>
    if c = '<' then
      match rest with
      | 'b' :: 'r' :: '>' :: rest2 => ltOnlyBr rest2
      | _ => false
    else ltOnlyBr rest

/-!  The Gemini retry loop, shared verbatim by
`gemini_ocr.extract_chunk_with_gemini` (lines 237-259) and
`gemini_html_cleanup.clean_with_gemini` (lines 85-106). -/

/-- Outcome of one `client.models.generate_content` call: success with
the response, or an exception whose text does / does not contain "429". -/
inductive CallResult where
  | ok (s : Str)
  | err (is429 : Bool)
  deriving DecidableEq, Repr

/-- Result of the retry loop: a successful response, a re-raised
exception at some attempt, or fall-through of the `for` loop; each
constructor records the sleeps (in seconds) performed before it. -/
inductive RetryResult where
  | ok (s : Str) (waits : List Nat)
  | raised (attempt : Nat) (is429 : Bool) (waits : List Nat)
  | exhausted (waits : List Nat)
  deriving DecidableEq, Repr

/-- Record one `time.sleep(wait)` in front of a retry-loop result. -/
def addWait (w : Nat) : RetryResult → RetryResult
  | .ok s ws => .ok s (w :: ws)
  | .raised a r ws => .raised a r (w :: ws)
  | .exhausted ws => .exhausted (w :: ws)

/-- `max_retries = 5` in both scripts. -/
def maxRetries : Nat := 5

/-- The body of `for attempt in range(max_retries)`: on success break;
on an exception, if `"429" in str(e) and attempt < max_retries - 1` sleep
`30 * (attempt + 1)` seconds and continue, otherwise re-raise. -/
def retryGo (call : Nat → CallResult) : List Nat → RetryResult
  | [] => .exhausted []
  | attempt :: rest =>
    match call attempt with
    | .ok s => .ok s []
    | .err is429 =>
      if is429 ∧ attempt < maxRetries - 1 then
        addWait (30 * (attempt + 1)) (retryGo call rest)
      else .raised attempt is429 []

/-- The whole retry loop around the hosted-API call. -/
def retryLoop (call : Nat → CallResult) : RetryResult :=
  retryGo call (List.range maxRetries)

/-!  `split_pdf` (`scripts/gemini_ocr.py` lines 198-218). -/

/-- A file handed to Gemini: the original PDF, or a freshly written chunk
file covering the given 1-based page range. -/
inductive ChunkFile where
  | original
  | chunk (s e : Nat)
  deriving DecidableEq, Repr

/-- Fuelled Python `range(start, stop, step)` over naturals (`step > 0`);
the fuel `stop` suffices since each iteration advances by at least one. -/
def pyRangeF : Nat → Nat → Nat → Nat → List Nat
  | 0, _, _, _ => []
  | fuel + 1, start, stop, step =>
    if start < stop then start :: pyRangeF fuel (start + step) stop step else []

/-- Python `range(start, stop, step)` for `step > 0`. -/
def pyRange (start stop step : Nat) : List Nat := pyRangeF stop start stop step

/-- `CHUNK_SIZE = 10` in `gemini_ocr.py`. -/
def CHUNK_SIZE : Nat := 10

/-- `split_pdf(pdf_path)` modelled on the page count: `n <= chunk_size`
returns the original path with range `(1, n)` and writes nothing;
otherwise one chunk per `start in range(0, n, chunk_size)` with pages
`start+1 .. min(start+chunk_size, n)`. -/
def split_pdf (totalPages chunkSize : Nat) :
    List (ChunkFile × Nat × Nat) :=
  if totalPages ≤ chunkSize then [(ChunkFile.original, 1, totalPages)]
  else
    (pyRange 0 totalPages chunkSize).map (fun start =>
      (ChunkFile.chunk (start + 1) (min (start + chunkSize) totalPages),
       start + 1, min (start + chunkSize) totalPages))

/-!  `cleanup_posts.py`: `is_all_caps`, `KEEP_UPPER`, `sentence_case`. -/

/-- `KEEP_UPPER` from `scripts/cleanup_posts.py` lines 18-28. -/
def KEEP_UPPER : List Str :=
  [ "USS", "USN", "U.S.", "U.S", "USA", "UK", "NATO", "AEC", "CIA", "FBI",
    "DOD", "DOE", "NASA", "MIT", "NRC", "USNA", "SSN", "CGN", "CVN",
    "FY", "AEGIS", "ASW", "ICBM", "SLBM", "MX", "TV", "CBS", "NBC",
    "ABC", "DC", "I", "II", "III", "IV", "V", "VI", "VII", "VIII", "IX",
    "X", "XI", "XII", "XIII", "XIV", "XV", "ROTC", "GNP", "GDP", "PhD",
    "D.C.", "N.Y.", "H.G.", "H.R.", "S.", "R&D", "PWR", "BWR", "TMI",
    "GPU", "NIMITZ", "OHIO", "TRIDENT", "POLARIS", "POSEIDON",
    "NAUTILUS", "DNA", "RNA", "IBM", "AT&T", "GE", "LBJ", "FDR", "TR",
    "AM", "PM", "AD", "BC", "OPEC" ].map String.toList

/-- `is_all_caps(text)` (cleanup_posts.py lines 35-41): at least 4
letters and an uppercase ratio above 0.7 (the float comparison
`upper/len > 0.7` is stated exactly as the rational `10*upper > 7*len`). -/
def is_all_caps (t : Str) : Bool :=
  let letters := t.filter (fun c => decide (isAlphaA c))
  decide (4 ≤ letters.length) &&
    decide (7 * letters.length < 10 * (letters.filter (fun c => decide (isUpperA c))).length)

/-- Fuelled scan for `re.sub(r'&[a-z]+;', '', word)`: at `&`, a greedy
run of lowercase letters followed by `;` is removed (with a fixed `;`
after the greedy `[a-z]+`, backtracking to a shorter run never helps,
since the follow-up character of a shorter run is again a lowercase
letter). -/
def remEntF : Nat → List Char → List Char
  | 0, l => l
  | _ + 1, [] => []
  | fuel + 1, c :: rest =>
    if c = '&' then
      let run := rest.takeWhile (fun d => decide (isLowerA d))
      if run ≠ [] ∧ (rest.drop run.length).head? = some ';' then
        remEntF fuel (rest.drop (run.length + 1))
      else c :: remEntF fuel rest
    else c :: remEntF fuel rest

/-- `re.sub(r'&[a-z]+;', '', word)` from `sentence_case`. -/
def removeEntities (l : List Char) : List Char := remEntF l.length l

/-- `clean_alpha`: strip entities, then `re.sub(r'[^A-Za-z]', '', clean)`. -/
def cleanAlpha (w : Str) : Str :=
  (removeEntities w).filter (fun c => decide (isAlphaA c))

/-- `word_upper == acronym.replace(".", "").upper()` tested against every
acronym of `KEEP_UPPER` (cleanup_posts.py lines 59-64). -/
def keepUpperMatch (w : Str) : Bool :=
  KEEP_UPPER.any (fun a =>
    decide ((cleanAlpha w).map pyToUpper = (a.filter (fun c => decide (c ≠ '.'))).map pyToUpper))

/-- `re.match(r'^[A-Z]\.[A-Z]\.?', word)` and
`re.match(r'^[A-Z]\.[A-Z]', stripped)`: both accept exactly the strings
whose first three characters are uppercase, `.`, uppercase. -/
def startsInitials : Str → Bool
  | c1 :: c2 :: c3 :: _ => decide (isUpperA c1) && decide (c2 = '.') && decide (isUpperA c3)
  | _ => false

/-- Python `str.rstrip(c)` for a single character. -/
def rstripChar (c : Char) (l : List Char) : List Char :=
  (l.reverse.dropWhile (fun x => decide (x = c))).reverse

/-- The sentence-end test applied to each word in `sentence_case` (both
branches use the same formula, lines 73-77 and 91-93): the word, with
trailing commas, then double quotes, then apostrophes stripped, ends
with `.`, `?` or `!` and does not match `^[A-Z]\.[A-Z]`. -/
def endsSentence (w : Str) : Bool :=
  let s := rstripChar sq39 (rstripChar '"' (rstripChar ',' w))
  (match s.getLast? with
   | some c => decide (c = '.' ∨ c = '?' ∨ c = '!')
   | none => false) && !startsInitials s

/-- `keep`: the word matches `KEEP_UPPER` or the dotted-initials regex
(cleanup_posts.py lines 59-68). -/
def keepWord (w : Str) : Bool := keepUpperMatch w || startsInitials w

/-- `word.lower()`. -/
def lowerW (w : Str) : Str := w.map pyToLower

/-- `capitalize_first(word)` (cleanup_posts.py lines 98-103): upper-case
the first alphabetic character. -/
def capitalizeFirst : Str → Str
  | [] => []
  | c :: rest =>
    if decide (isAlphaA c) then pyToUpper c :: rest else c :: capitalizeFirst rest

/-- Python `str.split()` with no argument: split on whitespace runs and
drop empty pieces; `acc` is the current word reversed. -/
def splitWSAux : List Char → List Char → List Str
  | acc, [] => if acc = [] then [] else [acc.reverse]
  | acc, c :: rest =>
    if isPySpace c then
      (if acc = [] then splitWSAux [] rest else acc.reverse :: splitWSAux [] rest)
    else splitWSAux (c :: acc) rest

/-- Python `text.split()`. -/
def splitWS (t : Str) : List Str := splitWSAux [] t

/-- The word loop of `sentence_case` (cleanup_posts.py lines 53-93) with
the `after_period` flag threaded as the Boolean state.  In the source,
`after_period` starts `True`, so the `after_period or i == 0` test equals
the flag itself, and in both branches the flag's net value after a word
is `endsSentence` of that word. -/
def scWords : Bool → List Str → List Str
  | _, [] => []
  | afterPeriod, w :: ws =>
    (if keepWord w then w
     else if afterPeriod then capitalizeFirst (lowerW w) else lowerW w)
      :: scWords (endsSentence w) ws

/-- `sentence_case(text)` from `scripts/cleanup_posts.py` lines 44-95. -/
def sentence_case (t : Str) : Str :=
  if is_all_caps t then joinSep ' ' (scWords true (splitWS t)) else t

/-- Sentence-start test at word index `i` of word list `ws`, as realised
by the threaded `after_period` flag started at `true`. -/
def sentStartAt (ws : List Str) (i : Nat) : Bool :=
  match i with
  | 0 => true
  | j + 1 =>
    match ws[j]? with
    | some v => endsSentence v
    | none => false

/-!  `strip_markdown` (`scripts/cleanup_summaries.py` lines 19-33).  Each
`re.sub` is a fuelled left-to-right scan with leftmost, non-greedy
matches; `(.+?)` never crosses a newline because `.` does not match one
without `re.DOTALL`. -/

/-- Scan for the closing two-character delimiter of `\*\*(.+?)\*\*` (and
`__(.+?)__`, `~~(.+?)~~`): the first position with two adjacent `d`s
after at least one content character, content stopping at a newline.
`acc` is the content scanned so far, reversed. -/
def findClose2 (d : Char) : List Char → List Char → Option (List Char × List Char)
  | _, [] => none
  | acc, c :: rest =>
    if c = d ∧ rest.head? = some d ∧ acc ≠ [] then some (acc.reverse, rest.tail)
    else if c = '\n' then none
    else findClose2 d (c :: acc) rest

/-- Fuelled scan for `re.sub(r'dd(.+?)dd', r'\1', s)` with a doubled
one-character delimiter `d`. -/
def subD2F (d : Char) : Nat → List Char → List Char
  | 0, l => l
  | _ + 1, [] => []
  | fuel + 1, c :: rest =>
    if c = d ∧ rest.head? = some d then
      match findClose2 d [] rest.tail with
      | some (content, rest2) => content ++ subD2F d fuel rest2
      | none => c :: subD2F d fuel rest
    else c :: subD2F d fuel rest

/-- `re.sub` with pattern `dd(.+?)dd`, e.g. `\*\*(.+?)\*\*`. -/
def subD2 (d : Char) (l : List Char) : List Char := subD2F d l.length l

/-- Lookaround test `\w` on an optional neighbouring character. -/
def isWordOpt : Option Char → Bool
  | some c => isWordChar c
  | none => false

/-- Closing scan for `(?<!\w)d(.+?)d(?!\w)`: the closing `d` must not be
followed by a word character; a rejected closer is absorbed into the
content by the regex's backtracking. -/
def findClose1L (d : Char) : List Char → List Char → Option (List Char × List Char)
  | _, [] => none
  | acc, c :: rest =>
    if c = d ∧ acc ≠ [] ∧ isWordOpt rest.head? = false then some (acc.reverse, rest)
    else if c = '\n' then none
    else findClose1L d (c :: acc) rest

/-- Fuelled scan for `re.sub(r'(?<!\w)d(.+?)d(?!\w)', r'\1', s)`; `prev`
is the character of the original string before the scan position, for the
lookbehind. -/
def subD1LF (d : Char) : Nat → Option Char → List Char → List Char
  | 0, _, l => l
  | _ + 1, _, [] => []
  | fuel + 1, prev, c :: rest =>
    if c = d ∧ isWordOpt prev = false then
      match findClose1L d [] rest with
      | some (content, rest2) => content ++ subD1LF d fuel (some d) rest2
      | none => c :: subD1LF d fuel (some c) rest
    else c :: subD1LF d fuel (some c) rest

/-- `re.sub` with pattern `(?<!\w)d(.+?)d(?!\w)`, e.g. the italics rules. -/
def subD1L (d : Char) (l : List Char) : List Char := subD1LF d l.length none l

/-- Closing scan for the inline-code rule `d(.+?)d` (no lookarounds). -/
def findClose1 (d : Char) : List Char → List Char → Option (List Char × List Char)
  | _, [] => none
  | acc, c :: rest =>
    if c = d ∧ acc ≠ [] then some (acc.reverse, rest)
    else if c = '\n' then none
    else findClose1 d (c :: acc) rest

/-- Fuelled scan for `re.sub(r'd(.+?)d', r'\1', s)`. -/
def subD1F (d : Char) : Nat → List Char → List Char
  | 0, l => l
  | _ + 1, [] => []
  | fuel + 1, c :: rest =>
    if c = d then
      match findClose1 d [] rest with
      | some (content, rest2) => content ++ subD1F d fuel rest2
      | none => c :: subD1F d fuel rest
    else c :: subD1F d fuel rest

/-- `re.sub` with pattern `d(.+?)d`, used for the backtick rule. -/
def subD1 (d : Char) (l : List Char) : List Char := subD1F d l.length l

/-- Length of the leading run of `d`s. -/
def countLeading (d : Char) : List Char → Nat
  | [] => 0
  | c :: rest => if c = d then countLeading d rest + 1 else 0

/-- Match of `#{1,6}\s+` at a line start: between one and six `#`s (a
run of seven or more never matches, since after at most six `#`s the
pattern requires whitespace) followed by a greedy non-empty run of `\s`
(which may cross newlines).  Returns whether the last consumed character
was a newline (so the resumption point is again a line start) and the
remaining input. -/
def headingMatch (l : List Char) : Option (Bool × List Char) :=
  if 1 ≤ countLeading '#' l ∧ countLeading '#' l ≤ 6 then
    if (l.drop (countLeading '#' l)).takeWhile isPySpace = [] then none
    else
      some (decide (((l.drop (countLeading '#' l)).takeWhile isPySpace).getLast? = some '\n'),
        (l.drop (countLeading '#' l)).drop
          ((l.drop (countLeading '#' l)).takeWhile isPySpace).length)
  else none

/-- Fuelled scan for `re.sub(r'^#{1,6}\s+', '', s, flags=re.MULTILINE)`:
`atLS` records whether the scan position is at a line start of the
original string. -/
def subHeadF : Nat → Bool → List Char → List Char
  | 0, _, l => l
  | _ + 1, _, [] => []
  | fuel + 1, atLS, c :: rest =>
    if atLS then
      match headingMatch (c :: rest) with
      | some (nl, rest2) => subHeadF fuel nl rest2
      | none => c :: subHeadF fuel (decide (c = '\n')) rest
    else c :: subHeadF fuel (decide (c = '\n')) rest

/-- The heading rule `re.sub(r'^#{1,6}\s+', '', text, flags=re.MULTILINE)`. -/
def subHead (l : List Char) : List Char := subHeadF l.length true l

/-- `strip_markdown(text)` from `scripts/cleanup_summaries.py` lines
19-33: bold `**`/`__`, italics `*`/`_` with lookarounds, inline code
backticks, multiline headings, strikethrough `~~`, in the source order. -/
def strip_markdown (t : Str) : Str :=
  subD2 '~'
    (subHead
      (subD1 bq96
        (subD1L '_'
          (subD1L '*'
            (subD2 '_'
              (subD2 '*' t))))))

/-- Markdown marker characters removed by `strip_markdown`. -/
def mdMarker (c : Char) : Bool :=
  decide (c = '*' ∨ c = '_' ∨ c = bq96 ∨ c = '#' ∨ c = '~')

/-- No markdown marker character occurs in the string. -/
def noMarkers (l : Str) : Bool := l.all (fun c => !mdMarker c)

/-!  `add_themes.py` and `cleanup_summaries.py` manifest passes. -/

/-- `THEME_MAP` from `scripts/add_themes.py` lines 18-61, in source
(dict-insertion) order. -/
def THEME_MAP : List (Str × List Str) :=
  [ ("1979 management magazine", ["Management", "Leadership"]),
    ("purpose of education", ["Education"]),
    ("some thoughts on the future", ["Government"]),
    ("accounting practices", ["Accountability", "Government"]),
    ("paper reactor memo", ["Navy", "Engineering"]),
    ("meaning of nautilus polar voyage", ["Navy"]),
    ("memo of conversation with jimmy carter", ["Government", "Navy"]),
    ("personal accountability in financial management", ["Accountability", "Government"]),
    ("humanistic technology", ["Technology", "Society"]),
    ("role of the critic", ["Society", "Education"]),
    ("lawyers versus society", ["Society", "Law"]),
    ("role of professional man", ["Society", "Work"]),
    ("energy speech at athens", ["Energy"]),
    ("nuclear power and bremerton", ["Navy", "Energy"]),
    ("rickover and education", ["Education"]),
    ("democracy and competence", ["Government", "Education"]),
    ("doing a job", ["Management", "Leadership"]),
    ("mans purpose in life", ["Society"]),
    ("what are schools for", ["Education"]),
    ("talented mind", ["Education"]),
    ("in defense of truth", ["Society", "Education"]),
    ("environmental perspective", ["Energy", "Environment"]),
    ("significance of electricity", ["Energy", "Technology"]),
    ("meaning of a university", ["Education"]),
    ("intellect in a democracy", ["Education", "Government"]),
    ("who protects the public", ["Accountability", "Government"]),
    ("summary of president nixon", ["Government", "Navy"]),
    ("administering large projects", ["Management", "Navy"]),
    ("our naval revolution", ["Navy", "Technology"]),
    ("americas goals", ["Society", "Education"]),
    ("never ending challenge", ["Navy", "Management"]),
    ("fact and fiction in american education", ["Education"]),
    ("technology and the citizen", ["Technology", "Society"]),
    ("nationsal scholastic standard", ["Education"]),
    ("freedom and the knowledge gap", ["Education", "Society"]),
    ("liberty, science, and law", ["Society", "Law"]),
    ("role of engineering in the navy", ["Navy", "Engineering"]),
    ("decline of the individual", ["Society"]),
    ("illusions cost too much", ["Navy", "Accountability"]),
    ("energy - a diminishing", ["Energy"]),
    ("business and freedom", ["Society", "Work"]),
    ("education and patriotism", ["Education"]) ].map
      (fun p => (p.1.toList, p.2.map String.toList))

/-- `get_themes(title)` (add_themes.py lines 80-86): the first
`THEME_MAP` key contained in the lower-cased title. -/
def get_themes (title : Str) : List Str :=
  match THEME_MAP.find? (fun p => decide (p.1 <:+: lowerW title)) with
  | some p => p.2
  | none => []

/-- The manifest rewrite of `add_themes.main` (lines 231-259): Gemini
entries whose title yields themes get a `themes` field; everything else
is untouched. -/
def addThemesManifest (data : List Entry) : List Entry :=
  data.map (fun e =>
    if e.gemini then
      let themes := get_themes (getD e.title [])
      if themes = [] then e else { e with themes := some themes }
    else e)

/-- The manifest rewrite of `cleanup_summaries.main` (lines 81-105):
non-empty summaries changed by `strip_markdown` are replaced; everything
else is untouched. -/
def cleanupSummariesManifest (data : List Entry) : List Entry :=
  data.map (fun e =>
    let s := getD e.summary []
    if s = [] then e
    else
      let c := strip_markdown s
      if c = s then e else { e with summary := some c })

/-- Frame relation for one manifest record: everything except the
`blog_page`, `themes` and `Summary` fields is unchanged. -/
def framePreserved (e e' : Entry) : Prop :=
  e'.title = e.title ∧ e'.year = e.year ∧ e'.typ = e.typ ∧ e'.source = e.source ∧
    e'.filePdf = e.filePdf ∧ e'.fileOCR = e.fileOCR ∧ e'.gemini = e.gemini ∧
    e'.extra = e.extra

instance (e e' : Entry) : Decidable (framePreserved e e') := by
  unfold framePreserved; infer_instance

/-- A concrete manifest record used to instantiate theorems with
hypotheses at a specific input. -/
def sampleEntry : Entry :=
  { title := some ("Doing a Job".toList)
    year := some 1982
    typ := some ("Speech".toList)
    summary := some ("A talk on **management**.".toList)
    source := some ("Naval archives".toList)
    filePdf := some ("https://example.com/doing-a-job.pdf".toList)
    fileOCR := none
    blogPage := none
    themes := none
    gemini := true
    extra := [("note".toList, "kept".toList)] }

/-- A concrete pipeline configuration: no page limit, no type filter. -/
def sampleCfg : Config := { maxPages := 0, types := none }

/-- A concrete per-document environment: nothing cached, download
succeeds. -/
def sampleEnv : Env :=
  { cached := false, downloadOk := true, pages := 3, ocrText := "SOME TEXT".toList }

/-- A concrete outcome sequence for the retry loop: one rate-limit error,
then success. -/
def sampleCall (n : Nat) : CallResult :=
  if n = 0 then CallResult.err true else CallResult.ok ("x".toList)

/-- Adjacency constraint for slug well-formedness: the pair is not two
hyphens, so `List.Chain' HyphOK` says the string has no `--` run. -/
def HyphOK (a b : Char) : Prop := ¬(a = '-' ∧ b = '-')

instance (a b : Char) : Decidable (HyphOK a b) := by
  unfold HyphOK; infer_instance

/-!  ### Character-level facts -/

theorem char_toNat_ofNat {n : Nat} (h : n < 55296) : (Char.ofNat n).toNat = n := by
  have hv : n.isValidChar := Or.inl h
  simp [Char.ofNat, hv, Char.ofNatAux, Char.toNat, UInt32.toNat]

theorem not_isUpperA_pyToLower (c : Char) : ¬ isUpperA (pyToLower c) := by
  unfold pyToLower
  by_cases h : isUpperA c
  · simp only [h, if_true]
    obtain ⟨h1, h2⟩ := h
    have hn : (Char.ofNat (c.toNat + 32)).toNat = c.toNat + 32 := char_toNat_ofNat (by omega)
    unfold isUpperA
    omega
  · rw [if_neg h]
    exact h

theorem pyToLower_eq_self {c : Char} (h : ¬ isUpperA c) : pyToLower c = c := by
  simp [pyToLower, h]

theorem not_isPySpace_of_lower_digit {c : Char} (h : isLowerA c ∨ isDigitA c) :
    isPySpace c = false := by
  simp only [isPySpace, decide_eq_false_iff_not]
  intro hc
  rcases hc with h1 | h1 | h1 | h1 | h1 | h1 <;> subst h1 <;> exact absurd h (by decide)

theorem not_isUpperA_of_lower_digit {c : Char} (h : isLowerA c ∨ isDigitA c) :
    ¬ isUpperA c := by
  unfold isLowerA isDigitA at h
  unfold isUpperA
  omega

/-!  ### `slugify` (C8) -/

theorem mem_collapseRuns {p : Char → Bool} {c : Char} :
    ∀ {l : List Char} {b : Bool}, c ∈ collapseRuns p b l → c = '-' ∨ (c ∈ l ∧ p c = false)
  | [], b => by simp [collapseRuns]
  | x :: xs, b => by
    intro h
    unfold collapseRuns at h
    by_cases hx : p x
    · simp only [hx, if_true] at h
      have h' : c = '-' ∨ c ∈ collapseRuns p true xs := by
        cases b
        · simpa using List.mem_cons.mp h
        · exact Or.inr h
      rcases h' with h1 | h1
      · exact Or.inl h1
      · rcases mem_collapseRuns h1 with h2 | ⟨h2, h3⟩
        · exact Or.inl h2
        · exact Or.inr ⟨List.mem_cons_of_mem _ h2, h3⟩
    · simp only [hx, Bool.false_eq_true, if_false, List.mem_cons] at h
      rcases h with h | h
      · exact Or.inr ⟨by simp [h], by simpa [h] using hx⟩
      · rcases mem_collapseRuns h with h1 | ⟨h1, h2⟩
        · exact Or.inl h1
        · exact Or.inr ⟨List.mem_cons_of_mem _ h1, h2⟩

theorem collapseRuns_eq_self {p : Char → Bool} :
    ∀ {l : List Char} {b : Bool}, (∀ c ∈ l, p c = false) → collapseRuns p b l = l
  | [], b => by intro; simp [collapseRuns]
  | x :: xs, b => by
    intro h
    have hx : p x = false := h x (by simp)
    unfold collapseRuns
    simp only [hx, Bool.false_eq_true, if_false]
    rw [collapseRuns_eq_self (fun c hc => h c (List.mem_cons_of_mem _ hc))]

theorem head?_collapseRuns_true {p : Char → Bool} :
    ∀ {l : List Char} {x : Char}, (collapseRuns p true l).head? = some x → p x = false
  | [], x => by simp [collapseRuns]
  | c :: cs, x => by
    intro h
    unfold collapseRuns at h
    by_cases hc : p c
    · simp only [hc, if_true] at h
      exact head?_collapseRuns_true h
    · simp only [hc, Bool.false_eq_true, if_false, List.head?_cons, Option.some.injEq] at h
      subst h
      simpa using hc

theorem chain'_collapseRuns_hyphen :
    ∀ (l : List Char) (b : Bool), List.Chain' HyphOK (collapseRuns isHyphen b l)
  | [], _ => by simp [collapseRuns]
  | x :: xs, b => by
    unfold collapseRuns
    by_cases hx : isHyphen x
    · simp only [hx, if_true]
      cases b
      · simp only [Bool.false_eq_true, if_false]
        rw [List.chain'_cons']
        refine ⟨?_, chain'_collapseRuns_hyphen xs true⟩
        intro y hy
        have hy' : isHyphen y = false :=
          head?_collapseRuns_true (Option.mem_def.mp hy)
        intro hcon
        rw [hcon.2] at hy'
        simp [isHyphen] at hy'
      · simp only [if_true]
        exact chain'_collapseRuns_hyphen xs true
    · simp only [hx, Bool.false_eq_true, if_false]
      rw [List.chain'_cons']
      refine ⟨?_, chain'_collapseRuns_hyphen xs false⟩
      intro y _ hcon
      rw [hcon.1] at hx
      simp [isHyphen] at hx

theorem chain'_take {α : Type} {R : α → α → Prop} {l : List α}
    (h : List.Chain' R l) (n : Nat) : List.Chain' R (l.take n) := by
  rw [← List.take_append_drop n l] at h
  exact (List.chain'_append.mp h).1

theorem chain'_dropWhile {α : Type} {R : α → α → Prop} {p : α → Bool} {l : List α}
    (h : List.Chain' R l) : List.Chain' R (l.dropWhile p) := by
  conv at h => rw [← List.takeWhile_append_dropWhile (p := p) (l := l)]
  exact (List.chain'_append.mp h).2.1

theorem chain'_reverse_hyph {l : List Char} (h : List.Chain' HyphOK l) :
    List.Chain' HyphOK l.reverse := by
  rw [List.chain'_reverse]
  exact h.imp (fun a b hab hcon => hab ⟨hcon.2, hcon.1⟩)

theorem chain'_stripEnds_hyph {p : Char → Bool} {l : List Char}
    (h : List.Chain' HyphOK l) : List.Chain' HyphOK (stripEnds p l) := by
  unfold stripEnds
  exact chain'_reverse_hyph (chain'_dropWhile (chain'_reverse_hyph (chain'_dropWhile h)))

theorem head?_eq_of_pref {α : Type} {l₁ l₂ : List α} (h : l₁ <+: l₂) {x : α}
    (hx : l₁.head? = some x) : l₂.head? = some x := by
  obtain ⟨t, rfl⟩ := h
  cases l₁ with
  | nil => simp at hx
  | cons a l => simpa using hx

theorem stripEnds_pref_drop (p : Char → Bool) (l : List Char) :
    stripEnds p l <+: l.dropWhile p := by
  have h1 : (l.dropWhile p).reverse.dropWhile p <:+ (l.dropWhile p).reverse :=
    List.dropWhile_suffix p
  have h2 := List.reverse_prefix.mpr h1
  rwa [List.reverse_reverse] at h2

theorem head?_stripEnds_not {p : Char → Bool} {l : List Char} {x : Char}
    (h : (stripEnds p l).head? = some x) : p x = false := by
  have h2 : (l.dropWhile p).head? = some x := head?_eq_of_pref (stripEnds_pref_drop p l) h
  have h3 := List.head?_dropWhile_not p l
  rw [h2] at h3
  exact h3

theorem getLast?_stripEnds_not {p : Char → Bool} {l : List Char} {x : Char}
    (h : (stripEnds p l).getLast? = some x) : p x = false := by
  unfold stripEnds at h
  rw [List.getLast?_reverse] at h
  have h3 := List.head?_dropWhile_not p (l.dropWhile p).reverse
  rw [h] at h3
  exact h3

theorem stripEnds_eq_self {p : Char → Bool} {l : List Char}
    (h1 : ∀ x, l.head? = some x → p x = false)
    (h2 : ∀ x, l.getLast? = some x → p x = false) : stripEnds p l = l := by
  have d1 : l.dropWhile p = l := by
    cases l with
    | nil => rfl
    | cons a t =>
      rw [List.dropWhile_cons, if_neg]
      simp [h1 a rfl]
  unfold stripEnds
  rw [d1]
  have d2 : l.reverse.dropWhile p = l.reverse := by
    cases hr : l.reverse with
    | nil => simp
    | cons a t =>
      have ha : l.getLast? = some a := by
        rw [← List.head?_reverse, hr]
        rfl
      rw [List.dropWhile_cons, if_neg]
      simp [h2 a ha]
  rw [d2, List.reverse_reverse]

theorem mem_slugifyCore {t : Str} {c : Char} (h : c ∈ slugifyCore t) :
    c = '-' ∨ isLowerA c ∨ isDigitA c := by
  unfold slugifyCore at h
  have h4 : c ∈ collapseRuns isHyphen false
      (collapseRuns isSpaceUnd false ((t.map pyToLower).filter slugKeep)) :=
    List.dropWhile_subset _ ((stripEnds_pref_drop _ _).subset h)
  rcases mem_collapseRuns h4 with h1 | ⟨h3, hh⟩
  · exact Or.inl h1
  rcases mem_collapseRuns h3 with h1 | ⟨h2, hsu⟩
  · exact Or.inl h1
  have hfm := List.mem_filter.mp h2
  have hup : ¬ isUpperA c := by
    obtain ⟨d, _, hd⟩ := List.mem_map.mp hfm.1
    rw [← hd]
    exact not_isUpperA_pyToLower d
  have hns : isPySpace c = false ∧ (decide (c = '_') : Bool) = false := by
    unfold isSpaceUnd at hsu
    simpa [Bool.or_eq_false_iff] using hsu
  have hword : isWordChar c = true := by
    have hk := hfm.2
    unfold slugKeep at hk
    simp only [hh, Bool.or_false, hns.1] at hk
    exact hk
  unfold isWordChar at hword
  simp only [Bool.or_eq_true, decide_eq_true_eq] at hword
  rcases hword with (hw | hw) | hw
  · unfold isAlphaA at hw
    rcases hw with hw | hw
    · exact absurd hw hup
    · exact Or.inr (Or.inl hw)
  · exact Or.inr (Or.inr hw)
  · exfalso
    rw [hw] at hns
    simp at hns

theorem collapseRuns_hyphen_of_chain :
    ∀ {l : List Char}, List.Chain' HyphOK l →
      collapseRuns isHyphen false l = l ∧
        ((∀ x, l.head? = some x → x ≠ '-') → collapseRuns isHyphen true l = l)
  | [], _ => by simp [collapseRuns]
  | c :: cs, h => by
    have hch := List.chain'_cons'.mp h
    have IH := collapseRuns_hyphen_of_chain hch.2
    constructor
    · unfold collapseRuns
      by_cases hc : isHyphen c
      · simp only [hc, if_true, Bool.false_eq_true, if_false]
        have hceq : c = '-' := by simpa [isHyphen] using hc
        have htail : ∀ x, cs.head? = some x → x ≠ '-' := by
          intro x hx hx'
          exact hch.1 x (Option.mem_def.mpr hx) ⟨hceq, hx'⟩
        rw [IH.2 htail, hceq]
      · simp only [hc, Bool.false_eq_true, if_false]
        rw [IH.1]
    · intro hhead
      unfold collapseRuns
      have hc : isHyphen c = false := by
        have := hhead c rfl
        simpa [isHyphen] using this
      simp only [hc, Bool.false_eq_true, if_false]
      rw [IH.1]

theorem head?_take_pos {α : Type} {l : List α} {n : Nat} (h : 0 < n) :
    (l.take n).head? = l.head? := by
  cases l with
  | nil => simp
  | cons a t =>
    cases n with
    | zero => omega
    | succ m => simp

theorem chain'_slugifyCore (t : Str) : List.Chain' HyphOK (slugifyCore t) := by
  unfold slugifyCore
  exact chain'_stripEnds_hyph (chain'_collapseRuns_hyphen _ false)

theorem head?_slugify_not_hyphen (t : Str) :
    ∀ x, (slugify t).head? = some x → x ≠ '-' := by
  intro x hx
  unfold slugify at hx
  rw [head?_take_pos (by omega)] at hx
  unfold slugifyCore at hx
  have h2 := head?_stripEnds_not hx
  simpa [isHyphen] using h2

theorem slugKeep_of_char {c : Char} (h : c = '-' ∨ isLowerA c ∨ isDigitA c) :
    slugKeep c = true := by
  rcases h with h | h | h
  · subst h; decide
  · simp [slugKeep, isWordChar, isAlphaA, h]
  · simp [slugKeep, isWordChar, h]

theorem isSpaceUnd_eq_false_of_char {c : Char} (h : c = '-' ∨ isLowerA c ∨ isDigitA c) :
    isSpaceUnd c = false := by
  rcases h with h | h | h
  · subst h; decide
  all_goals
    unfold isSpaceUnd
    rw [not_isPySpace_of_lower_digit (by tauto)]
    simp only [Bool.false_or, decide_eq_false_iff_not]
    intro hc
    subst hc
    revert h
    decide

/-- C8, amended: the slug is at most 120 characters, has no whitespace,
no ASCII uppercase letter, no run of consecutive hyphens, and never
starts with a hyphen; when the pre-truncation slug fits in 120
characters (so `[:120]` is a no-op) it also never ends with a hyphen and
`slugify` is idempotent on it.  (As stated in the claim, the
no-trailing-hyphen and idempotence parts are false: `strip("-")` runs
before `[:120]`, so truncation can re-expose a trailing hyphen — see the
counterexample.) -/
theorem slugify_wellformed (t : Str) :
    (slugify t).length ≤ 120
    ∧ (∀ c ∈ slugify t, isPySpace c = false ∧ ¬ isUpperA c)
    ∧ List.Chain' HyphOK (slugify t)
    ∧ (∀ x, (slugify t).head? = some x → x ≠ '-')
    ∧ ((slugifyCore t).length ≤ 120 →
        (∀ x, (slugify t).getLast? = some x → x ≠ '-')
        ∧ slugify (slugify t) = slugify t) := by
  refine ⟨List.length_take_le 120 _, ?_, ?_, head?_slugify_not_hyphen t, ?_⟩
  · intro c hc
    have hmem : c ∈ slugifyCore t := List.take_subset _ _ hc
    rcases mem_slugifyCore hmem with h | h
    · subst h
      exact ⟨by decide, by decide⟩
    · exact ⟨not_isPySpace_of_lower_digit h, not_isUpperA_of_lower_digit h⟩
  · exact chain'_take (chain'_slugifyCore t) 120
  · intro hlen
    have hid : slugify t = slugifyCore t := List.take_of_length_le hlen
    constructor
    · intro x hx
      rw [hid] at hx
      unfold slugifyCore at hx
      have h2 := getLast?_stripEnds_not hx
      simpa [isHyphen] using h2
    · rw [hid]
      have hchars : ∀ c ∈ slugifyCore t, c = '-' ∨ isLowerA c ∨ isDigitA c :=
        fun c hc => mem_slugifyCore hc
      have hmap : (slugifyCore t).map pyToLower = slugifyCore t := by
        rw [List.map_congr_left (g := id) ?_, List.map_id]
        intro c hc
        rcases hchars c hc with h | h
        · subst h; decide
        · exact pyToLower_eq_self (not_isUpperA_of_lower_digit h)
      have hfil : (slugifyCore t).filter slugKeep = slugifyCore t :=
        List.filter_eq_self.mpr (fun c hc => slugKeep_of_char (hchars c hc))
      have hsu : collapseRuns isSpaceUnd false (slugifyCore t) = slugifyCore t :=
        collapseRuns_eq_self (fun c hc => isSpaceUnd_eq_false_of_char (hchars c hc))
      have hhyp : collapseRuns isHyphen false (slugifyCore t) = slugifyCore t :=
        (collapseRuns_hyphen_of_chain (chain'_slugifyCore t)).1
      have hstrip : stripEnds isHyphen (slugifyCore t) = slugifyCore t := by
        apply stripEnds_eq_self
        · intro x hx
          unfold slugifyCore at hx
          exact head?_stripEnds_not hx
        · intro x hx
          unfold slugifyCore at hx
          exact getLast?_stripEnds_not hx
      set s := slugifyCore t with hs
      show slugify s = s
      unfold slugify slugifyCore
      rw [hmap, hfil, hsu, hhyp, hstrip]
      exact List.take_of_length_le hlen

/-- C8, counterexample: for the 121-character title `"a"*119 ++ " b"`,
`slug.strip("-")` runs before `[:120]`, so the truncated slug ends in a
hyphen and a second `slugify` strips it again; both the
"does not end with a hyphen" and the idempotence conjuncts of the claim
fail at this input. -/
theorem slugify_trunc_counterexample :
    (slugify (List.replicate 119 'a' ++ " b".toList)).getLast? = some '-'
    ∧ slugify (slugify (List.replicate 119 'a' ++ " b".toList))
        ≠ slugify (List.replicate 119 'a' ++ " b".toList) := by
  constructor
  · decide
  · decide

/-- Witness for `slugify_wellformed` at the concrete title
`"Hello World"`, discharging the no-truncation hypothesis. -/
theorem slugify_wellformed_witness :
    (slugify ("Hello World".toList)).length ≤ 120
    ∧ slugify (slugify ("Hello World".toList)) = slugify ("Hello World".toList) :=
  ⟨(slugify_wellformed ("Hello World".toList)).1,
   ((slugify_wellformed ("Hello World".toList)).2.2.2.2 (by decide)).2⟩

/-!  ### `generate_pages.main` (C1, C7) -/

/-- C1: after `generate_pages.main`, manifest records and generated
files are in sync — every entry's `blog_page` equals
`"posts/" + slugify(Title) + ".html"`, and a post file was written at
exactly that path in the same run. -/
theorem generate_pages_sync (m : List Entry) (i : Nat) (e : Entry) (t : Str)
    (hm : m[i]? = some e) (ht : e.title = some t) :
    ∃ e', (generatePagesManifest m)[i]? = some e'
      ∧ e'.blogPage = some (postsPath (slugify t))
      ∧ postsPath (slugify t) ∈ generatePagesWrites m := by
  refine ⟨{ e with blogPage := some (postsPath (slugify (getD e.title ("untitled".toList)))) }, ?_, ?_, ?_⟩
  · unfold generatePagesManifest
    rw [List.getElem?_map, hm]
    rfl
  · simp [getD, ht]
  · unfold generatePagesWrites
    exact List.mem_map.mpr ⟨e, List.getElem?_mem hm, by simp [getD, ht]⟩

/-- Witness for `generate_pages_sync` on a one-record manifest. -/
theorem generate_pages_sync_witness :
    ∃ e', (generatePagesManifest [sampleEntry])[0]? = some e'
      ∧ e'.blogPage = some (postsPath (slugify ("Doing a Job".toList)))
      ∧ postsPath (slugify ("Doing a Job".toList)) ∈ generatePagesWrites [sampleEntry] :=
  generate_pages_sync [sampleEntry] 0 sampleEntry ("Doing a Job".toList) rfl rfl

/-- C7: `generate_pages.main` regenerates one post page per manifest
entry, writing (and thereby overwriting) the file at that entry's slug
path unconditionally, so the number of write events equals the number of
manifest entries. -/
theorem generate_pages_writes_all (m : List Entry) :
    (generatePagesWrites m).length = m.length
    ∧ ∀ (i : Nat) (e : Entry), m[i]? = some e →
        (generatePagesWrites m)[i]? =
          some (postsPath (slugify (getD e.title ("Untitled".toList)))) := by
  constructor
  · exact List.length_map m _
  · intro i e hm
    unfold generatePagesWrites
    rw [List.getElem?_map, hm]
    rfl

/-- Witness for `generate_pages_writes_all` on a one-record manifest. -/
theorem generate_pages_writes_all_witness :
    (generatePagesWrites [sampleEntry]).length = 1
    ∧ (generatePagesWrites [sampleEntry])[0]? =
        some (postsPath (slugify (getD sampleEntry.title ("Untitled".toList)))) :=
  ⟨(generate_pages_writes_all [sampleEntry]).1,
   (generate_pages_writes_all [sampleEntry]).2 0 sampleEntry rfl⟩

/-!  ### Pipeline ordering (C3) and manifest frame (C4) -/

theorem rewrite_sublist_traceAux (cfg : Config) :
    ∀ (m : List (Entry × Env)) (i0 : Nat),
      List.Sublist [Ev.rewriteManifest] (pipelineTraceAux cfg i0 m)
  | [], _ => by simp [pipelineTraceAux]
  | p :: rest, i0 => by
    unfold pipelineTraceAux
    exact (rewrite_sublist_traceAux cfg rest (i0 + 1)).trans
      (List.sublist_append_right _ _)

theorem seg_sublist_traceAux (cfg : Config) :
    ∀ (m : List (Entry × Env)) (i0 i : Nat) (e : Entry) (env : Env),
      m[i]? = some (e, env) →
      List.Sublist (entryEvents cfg (i0 + i) e env ++ [Ev.rewriteManifest])
        (pipelineTraceAux cfg i0 m)
  | [], _, i, _, _ => by simp
  | p :: rest, i0, i, e, env => by
    intro hm
    unfold pipelineTraceAux
    cases i with
    | zero =>
      simp only [List.getElem?_cons_zero, Option.some.injEq] at hm
      subst hm
      rw [Nat.add_zero]
      exact List.Sublist.append_left (rewrite_sublist_traceAux cfg rest (i0 + 1)) _
    | succ j =>
      simp only [List.getElem?_cons_succ] at hm
      have IH := seg_sublist_traceAux cfg rest (i0 + 1) j e env hm
      rw [show i0 + (j + 1) = (i0 + 1) + j from by omega]
      exact IH.trans (List.sublist_append_right _ _)

/-- C3: for every document the pipeline fully processes (not filtered by
type, has a PDF URL, not already cached, download succeeds, not skipped
by the page limit), the run performs fetch, OCR, regex-clean
(`format_ocr_text`), and HTML templating in that order, and the
`manifest.json` rewrite happens after all of them. -/
theorem pipeline_step_order (cfg : Config) (m : List (Entry × Env)) (i : Nat)
    (e : Entry) (env : Env) (hm : m[i]? = some (e, env))
    (h1 : typeSkip cfg e = false) (h2 : ¬ getD e.filePdf [] = [])
    (h3 : env.cached = false) (h4 : env.downloadOk = true)
    (h5 : pagesSkip cfg env = false) :
    List.Sublist [Ev.fetch i, Ev.ocr i, Ev.clean i, Ev.template i, Ev.rewriteManifest]
      (pipelineTrace cfg m) := by
  have hev : entryEvents cfg i e env = [Ev.fetch i, Ev.ocr i, Ev.clean i, Ev.template i] := by
    unfold entryEvents
    simp [h1, h2, h3, h4, h5]
  have hs := seg_sublist_traceAux cfg m 0 i e env hm
  rw [Nat.zero_add, hev] at hs
  exact hs

/-- Witness for `pipeline_step_order` on a one-document run. -/
theorem pipeline_step_order_witness :
    List.Sublist [Ev.fetch 0, Ev.ocr 0, Ev.clean 0, Ev.template 0, Ev.rewriteManifest]
      (pipelineTrace sampleCfg [(sampleEntry, sampleEnv)]) :=
  pipeline_step_order sampleCfg [(sampleEntry, sampleEnv)] 0 sampleEntry sampleEnv
    rfl (by decide) (by decide) rfl rfl rfl

/-- C4: every script that rewrites `manifest.json`
(`generate_pages.main`, `add_themes.main`, `cleanup_summaries.main`,
`pipeline.main`) preserves the number and order of the records, and each
record keeps all of its fields except possibly `blog_page`, `themes` and
`Summary`. -/
theorem manifest_rewrites_frame (m : List Entry) (pm : List (Entry × Env)) (cfg : Config) :
    ((generatePagesManifest m).length = m.length
      ∧ ∀ (i : Nat) (e e' : Entry), m[i]? = some e →
          (generatePagesManifest m)[i]? = some e' → framePreserved e e')
    ∧ ((addThemesManifest m).length = m.length
      ∧ ∀ (i : Nat) (e e' : Entry), m[i]? = some e →
          (addThemesManifest m)[i]? = some e' → framePreserved e e')
    ∧ ((cleanupSummariesManifest m).length = m.length
      ∧ ∀ (i : Nat) (e e' : Entry), m[i]? = some e →
          (cleanupSummariesManifest m)[i]? = some e' → framePreserved e e')
    ∧ ((pipelineManifest cfg pm).length = pm.length
      ∧ ∀ (i : Nat) (e : Entry) (env : Env) (e' : Entry), pm[i]? = some (e, env) →
          (pipelineManifest cfg pm)[i]? = some e' → framePreserved e e') := by
  refine ⟨⟨List.length_map _ _, ?_⟩, ⟨List.length_map _ _, ?_⟩,
    ⟨List.length_map _ _, ?_⟩, ⟨List.length_map _ _, ?_⟩⟩
  · intro i e e' hm hm'
    unfold generatePagesManifest at hm'
    rw [List.getElem?_map, hm] at hm'
    simp only [Option.map_some', Option.some.injEq] at hm'
    subst hm'
    simp [framePreserved]
  · intro i e e' hm hm'
    unfold addThemesManifest at hm'
    rw [List.getElem?_map, hm] at hm'
    simp only [Option.map_some', Option.some.injEq] at hm'
    subst hm'
    split_ifs <;> simp [framePreserved]
  · intro i e e' hm hm'
    unfold cleanupSummariesManifest at hm'
    rw [List.getElem?_map, hm] at hm'
    simp only [Option.map_some', Option.some.injEq] at hm'
    subst hm'
    split_ifs <;> simp [framePreserved]
  · intro i e env e' hm hm'
    unfold pipelineManifest at hm'
    rw [List.getElem?_map, hm] at hm'
    simp only [Option.map_some', Option.some.injEq] at hm'
    subst hm'
    unfold entryUpdate
    split_ifs <;> simp [framePreserved]

/-- Witness for `manifest_rewrites_frame` on one-record inputs. -/
theorem manifest_rewrites_frame_witness :
    ∃ e1 e2 : Entry,
      (generatePagesManifest [sampleEntry])[0]? = some e1
      ∧ framePreserved sampleEntry e1
      ∧ (pipelineManifest sampleCfg [(sampleEntry, sampleEnv)])[0]? = some e2
      ∧ framePreserved sampleEntry e2 := by
  refine ⟨_, _, rfl, ?_, rfl, ?_⟩
  · exact (manifest_rewrites_frame [sampleEntry] [] sampleCfg).1.2 0 sampleEntry _ rfl rfl
  · exact (manifest_rewrites_frame [sampleEntry] [(sampleEntry, sampleEnv)] sampleCfg).2.2.2.2
      0 sampleEntry sampleEnv _ rfl rfl

/-!  ### The Gemini retry loop (C2) -/

theorem addWait_eq_ok {w : Nat} {r : RetryResult} {s : Str} {ws : List Nat}
    (h : addWait w r = .ok s ws) : ∃ ws', r = .ok s ws' ∧ ws = w :: ws' := by
  cases r with
  | ok s' ws' =>
    simp only [addWait, RetryResult.ok.injEq] at h
    exact ⟨ws', by rw [h.1], h.2.symm⟩
  | raised a b w2 => simp [addWait] at h
  | exhausted w2 => simp [addWait] at h

theorem addWait_eq_raised {w : Nat} {r : RetryResult} {a : Nat} {b : Bool} {ws : List Nat}
    (h : addWait w r = .raised a b ws) : ∃ ws', r = .raised a b ws' ∧ ws = w :: ws' := by
  cases r with
  | ok s' ws' => simp [addWait] at h
  | raised a' b' w2 =>
    simp only [addWait, RetryResult.raised.injEq] at h
    exact ⟨w2, by rw [h.1, h.2.1], h.2.2.symm⟩
  | exhausted w2 => simp [addWait] at h

theorem addWait_eq_exhausted {w : Nat} {r : RetryResult} {ws : List Nat}
    (h : addWait w r = .exhausted ws) : ∃ ws', r = .exhausted ws' ∧ ws = w :: ws' := by
  cases r with
  | ok s' ws' => simp [addWait] at h
  | raised a' b' w2 => simp [addWait] at h
  | exhausted w2 =>
    simp only [addWait, RetryResult.exhausted.injEq] at h
    exact ⟨w2, rfl, h.symm⟩

theorem retryGo_cons_ok {call : Nat → CallResult} {a : Nat} {rest : List Nat} {s : Str}
    (hc : call a = .ok s) : retryGo call (a :: rest) = .ok s [] := by
  simp only [retryGo, hc]

theorem retryGo_cons_err {call : Nat → CallResult} {a : Nat} {rest : List Nat} {b : Bool}
    (hc : call a = .err b) :
    retryGo call (a :: rest) =
      if b = true ∧ a < maxRetries - 1 then addWait (30 * (a + 1)) (retryGo call rest)
      else .raised a b [] := by
  simp only [retryGo, hc]

theorem retryGo_range'_spec (call : Nat → CallResult) :
    ∀ (k a : Nat), a + k = maxRetries →
      (∀ s ws, retryGo call (List.range' a k) = .ok s ws →
        ∃ j, a ≤ j ∧ j < maxRetries ∧ call j = .ok s
          ∧ (∀ n, a ≤ n → n < j → call n = .err true)
          ∧ ws = (List.range' a (j - a)).map (fun n => 30 * (n + 1)))
      ∧ (∀ att r ws, retryGo call (List.range' a k) = .raised att r ws →
        a ≤ att ∧ att < maxRetries ∧ call att = .err r
          ∧ (r = true → att = maxRetries - 1)
          ∧ (∀ n, a ≤ n → n < att → call n = .err true)
          ∧ ws = (List.range' a (att - a)).map (fun n => 30 * (n + 1)))
      ∧ (1 ≤ k → ∀ ws, retryGo call (List.range' a k) ≠ .exhausted ws)
  | 0, a => by
    intro _
    refine ⟨?_, ?_, ?_⟩
    · intro s ws h
      simp [retryGo] at h
    · intro att r ws h
      simp [retryGo] at h
    · intro hk
      omega
  | kk + 1, a => by
    intro hak
    have ha5 : a < maxRetries := by omega
    rw [List.range'_succ]
    refine ⟨?_, ?_, ?_⟩
    · intro s ws h
      cases hc : call a with
      | ok s' =>
        rw [retryGo_cons_ok hc, RetryResult.ok.injEq] at h
        refine ⟨a, Nat.le_refl a, ha5, by rw [hc, h.1], fun n hn1 hn2 => by omega, ?_⟩
        rw [← h.2, Nat.sub_self]
        simp
      | err b =>
        rw [retryGo_cons_err hc] at h
        by_cases hcond : b = true ∧ a < maxRetries - 1
        · rw [if_pos hcond] at h
          obtain ⟨ws', hr, hws⟩ := addWait_eq_ok h
          obtain ⟨j, hj1, hj2, hj3, hj4, hj5⟩ :=
            (retryGo_range'_spec call kk (a + 1) (by omega)).1 s ws' hr
          refine ⟨j, by omega, hj2, hj3, ?_, ?_⟩
          · intro n hn1 hn2
            rcases Nat.eq_or_lt_of_le hn1 with hn | hn
            · rw [← hn, hc, hcond.1]
            · exact hj4 n (by omega) hn2
          · rw [hws, hj5]
            rw [show List.range' a (j - a) = a :: List.range' (a + 1) (j - (a + 1)) from by
              rw [show j - a = (j - (a + 1)) + 1 from by omega, List.range'_succ]]
            simp
        · rw [if_neg hcond] at h
          simp at h
    · intro att r ws h
      cases hc : call a with
      | ok s' =>
        rw [retryGo_cons_ok hc] at h
        simp at h
      | err b =>
        rw [retryGo_cons_err hc] at h
        by_cases hcond : b = true ∧ a < maxRetries - 1
        · rw [if_pos hcond] at h
          obtain ⟨ws', hr, hws⟩ := addWait_eq_raised h
          obtain ⟨hj1, hj2, hj3, hj4, hj5, hj6⟩ :=
            (retryGo_range'_spec call kk (a + 1) (by omega)).2.1 att r ws' hr
          refine ⟨by omega, hj2, hj3, hj4, ?_, ?_⟩
          · intro n hn1 hn2
            rcases Nat.eq_or_lt_of_le hn1 with hn | hn
            · rw [← hn, hc, hcond.1]
            · exact hj5 n (by omega) hn2
          · rw [hws, hj6]
            rw [show List.range' a (att - a) = a :: List.range' (a + 1) (att - (a + 1)) from by
              rw [show att - a = (att - (a + 1)) + 1 from by omega, List.range'_succ]]
            simp
        · rw [if_neg hcond] at h
          rw [RetryResult.raised.injEq] at h
          obtain ⟨h1, h2, h3⟩ := h
          subst h1
          subst h2
          refine ⟨Nat.le_refl a, ha5, hc, ?_, fun n hn1 hn2 => by omega, ?_⟩
          · intro hb
            subst hb
            simp only [true_and, not_lt] at hcond
            omega
          · rw [← h3, Nat.sub_self]
            simp
    · intro _ ws h
      cases hc : call a with
      | ok s' =>
        rw [retryGo_cons_ok hc] at h
        simp at h
      | err b =>
        rw [retryGo_cons_err hc] at h
        by_cases hcond : b = true ∧ a < maxRetries - 1
        · rw [if_pos hcond] at h
          obtain ⟨ws', hr, _⟩ := addWait_eq_exhausted h
          exact (retryGo_range'_spec call kk (a + 1) (by omega)).2.2 (by omega) ws' hr
        · rw [if_neg hcond] at h
          simp at h

/-- C2, amended: the retry loop around the hosted-API call makes at most
5 attempts; a success comes after only rate-limited failures, having
slept `30 * (k + 1)` seconds after the `k`-th failed attempt (a linearly
increasing backoff, not a constant wait); a non-429 error is re-raised
at once, a 429 is re-raised only on the 5th and last attempt; and the
`for` loop never falls through without breaking or raising. -/
theorem retry_loop_spec (call : Nat → CallResult) :
    (∀ s ws, retryLoop call = .ok s ws →
      ∃ j, j < 5 ∧ call j = .ok s ∧ (∀ n, n < j → call n = .err true)
        ∧ ws = (List.range j).map (fun n => 30 * (n + 1)))
    ∧ (∀ att r ws, retryLoop call = .raised att r ws →
      att < 5 ∧ call att = .err r ∧ (r = true → att = 4)
        ∧ (∀ n, n < att → call n = .err true)
        ∧ ws = (List.range att).map (fun n => 30 * (n + 1)))
    ∧ (∀ ws, retryLoop call ≠ .exhausted ws) := by
  have hspec := retryGo_range'_spec call maxRetries 0 (by omega)
  have hloop : retryLoop call = retryGo call (List.range' 0 maxRetries) := by
    unfold retryLoop
    rw [List.range_eq_range']
  refine ⟨?_, ?_, ?_⟩
  · intro s ws h
    rw [hloop] at h
    obtain ⟨j, _, hj2, hj3, hj4, hj5⟩ := hspec.1 s ws h
    refine ⟨j, hj2, hj3, fun n hn => hj4 n (Nat.zero_le n) hn, ?_⟩
    rw [hj5, List.range_eq_range', Nat.sub_zero]
  · intro att r ws h
    rw [hloop] at h
    obtain ⟨_, hj2, hj3, hj4, hj5, hj6⟩ := hspec.2.1 att r ws h
    refine ⟨hj2, hj3, hj4, fun n hn => hj5 n (Nat.zero_le n) hn, ?_⟩
    rw [hj6, List.range_eq_range', Nat.sub_zero]
  · intro ws h
    rw [hloop] at h
    exact hspec.2.2 (by decide) ws h

/-- C2, counterexample: with every attempt rate-limited, the sleeps are
30, 60, 90 and 120 seconds — the wait between consecutive attempts is
not a fixed constant (`30 * (attempt + 1)` in both scripts), refuting
the claim's "fixed (constant) wait duration". -/
theorem retry_wait_not_constant :
    retryLoop (fun _ => CallResult.err true) = .raised 4 true [30, 60, 90, 120]
    ∧ (30 : Nat) ≠ 60 := by
  constructor
  · decide
  · decide

/-- Witness for `retry_loop_spec`: one rate-limited attempt, then
success, giving a single 30-second sleep. -/
theorem retry_loop_spec_witness :
    ∃ j, j < 5 ∧ sampleCall j = .ok ("x".toList)
      ∧ (∀ n, n < j → sampleCall n = .err true)
      ∧ [30] = (List.range j).map (fun n => 30 * (n + 1)) :=
  (retry_loop_spec sampleCall).1 ("x".toList) [30] (by decide)

/-!  ### `split_pdf` (C9) -/

theorem pyRangeF_nil {start stop step : Nat} (h : ¬ start < stop) :
    ∀ fuel, pyRangeF fuel start stop step = [] := by
  intro fuel
  cases fuel with
  | zero => rfl
  | succ f => simp [pyRangeF, h]

theorem pyRangeF_chunks (total : Nat) :
    ∀ (fuel start : Nat), start < total → total ≤ start + 10 * fuel →
      (let l := (pyRangeF fuel start total 10).map
        (fun st => (ChunkFile.chunk (st + 1) (min (st + 10) total),
                    st + 1, min (st + 10) total))
      l ≠ []
      ∧ l.head? = some (ChunkFile.chunk (start + 1) (min (start + 10) total),
                        start + 1, min (start + 10) total)
      ∧ l.getLast?.map (fun x => x.2.2) = some total
      ∧ List.Chain' (fun x y => y.2.1 = x.2.2 + 1) l
      ∧ ∀ x ∈ l, x.2.1 ≤ x.2.2 ∧ x.2.2 ≤ x.2.1 + 9)
  | 0, start => by
    intro h1 h2
    omega
  | fuel + 1, start => by
    intro h1 h2
    simp only [pyRangeF, h1, if_true]
    by_cases hnext : start + 10 < total
    · obtain ⟨IH1, IH2, IH3, IH4, IH5⟩ :=
        pyRangeF_chunks total fuel (start + 10) hnext (by omega)
      have hmin : min (start + 10) total = start + 10 := by omega
      refine ⟨by simp, by simp, ?_, ?_, ?_⟩
      · obtain ⟨y, ys, hy⟩ := List.exists_cons_of_ne_nil IH1
        rw [List.map_cons]
        rw [hy, List.getLast?_cons_cons]
        rw [← hy, IH3]
      · rw [List.map_cons, List.chain'_cons']
        refine ⟨?_, IH4⟩
        intro y hy
        rw [Option.mem_def, IH2] at hy
        injection hy with hy'
        subst hy'
        simp [hmin]
      · intro x hx
        rw [List.map_cons, List.mem_cons] at hx
        rcases hx with hx | hx
        · subst hx
          simp only
          omega
        · exact IH5 x hx
    · have htail : pyRangeF fuel (start + 10) total 10 = [] := pyRangeF_nil hnext fuel
      rw [htail]
      have hmin : min (start + 10) total = total := by omega
      refine ⟨by simp, by simp, by simp [hmin], by simp, ?_⟩
      intro x hx
      simp only [List.map_cons, List.map_nil, List.mem_cons, List.not_mem_nil, or_false] at hx
      subst hx
      simp only
      omega

/-- C9: `split_pdf` partitions the pages exactly — a PDF of at most 10
pages is returned as the original file with range `(1, n)` and no chunk
is written; a larger PDF is split into chunk files whose ranges start at
page 1, are consecutive, non-overlapping and ascending, each cover at
most 10 pages, and end at page `n`. -/
theorem split_pdf_partition (n : Nat) :
    (n ≤ 10 → split_pdf n CHUNK_SIZE = [(ChunkFile.original, 1, n)])
    ∧ (10 < n →
        split_pdf n CHUNK_SIZE ≠ []
        ∧ (∀ x ∈ split_pdf n CHUNK_SIZE, ∃ s e, x = (ChunkFile.chunk s e, s, e))
        ∧ (split_pdf n CHUNK_SIZE).head? = some (ChunkFile.chunk 1 10, 1, 10)
        ∧ (split_pdf n CHUNK_SIZE).getLast?.map (fun x => x.2.2) = some n
        ∧ List.Chain' (fun x y => y.2.1 = x.2.2 + 1) (split_pdf n CHUNK_SIZE)
        ∧ ∀ x ∈ split_pdf n CHUNK_SIZE, x.2.1 ≤ x.2.2 ∧ x.2.2 ≤ x.2.1 + 9) := by
  constructor
  · intro h
    unfold split_pdf
    rw [if_pos (by simpa [CHUNK_SIZE] using h)]
  · intro h
    have hsp : split_pdf n CHUNK_SIZE = (pyRangeF n 0 n 10).map
        (fun st => (ChunkFile.chunk (st + 1) (min (st + 10) n), st + 1, min (st + 10) n)) := by
      unfold split_pdf
      rw [if_neg (by simp [CHUNK_SIZE]; omega)]
      rfl
    obtain ⟨P1, P2, P3, P4, P5⟩ := pyRangeF_chunks n n 0 (by omega) (by omega)
    rw [hsp]
    refine ⟨P1, ?_, ?_, P3, P4, P5⟩
    · intro x hx
      obtain ⟨st, _, hst⟩ := List.mem_map.mp hx
      exact ⟨st + 1, min (st + 10) n, hst.symm⟩
    · rw [P2]
      have : min (0 + 10) n = 10 := by omega
      simp [this]

/-- Witness for `split_pdf_partition` at 7 and 25 pages. -/
theorem split_pdf_partition_witness :
    split_pdf 7 CHUNK_SIZE = [(ChunkFile.original, 1, 7)]
    ∧ split_pdf 25 CHUNK_SIZE ≠ []
    ∧ (split_pdf 25 CHUNK_SIZE).head? = some (ChunkFile.chunk 1 10, 1, 10) :=
  ⟨(split_pdf_partition 7).1 (by decide),
   ((split_pdf_partition 25).2 (by decide)).1,
   ((split_pdf_partition 25).2 (by decide)).2.2.1⟩

/-!  ### `sentence_case` (C5) -/

theorem scWords_getElem? :
    ∀ (ws : List Str) (b : Bool) (i : Nat) (w : Str), ws[i]? = some w →
      (scWords b ws)[i]? = some
        (if keepWord w then w
         else if (match i with
           | 0 => b
           | j + 1 => (match ws[j]? with
             | some v => endsSentence v
             | none => false)) then capitalizeFirst (lowerW w)
         else lowerW w)
  | [], b, i, w => by
    intro hm
    simp at hm
  | w0 :: rest, b, i, w => by
    intro hm
    cases i with
    | zero =>
      simp only [List.getElem?_cons_zero, Option.some.injEq] at hm
      subst hm
      simp [scWords]
    | succ j =>
      simp only [List.getElem?_cons_succ] at hm
      have IH := scWords_getElem? rest (endsSentence w0) j w hm
      simp only [scWords, List.getElem?_cons_succ]
      rw [IH]
      cases j with
      | zero => simp
      | succ k => simp

/-- C5, amended: on a paragraph classified as predominantly ALL CAPS,
`sentence_case` leaves unchanged every word whose alphabetic characters
match a `KEEP_UPPER` acronym (ignoring case and periods), but it equally
leaves unchanged any word matching the dotted-initials pattern
`^[A-Z]\.[A-Z]` even when it is not in `KEEP_UPPER`; all remaining
words are lower-cased, with the first letter re-capitalized exactly at
sentence starts.  (The claim's "other words are lowercased" is false for
dotted initials such as `J.F.K.` — see the counterexample.) -/
theorem sentence_case_words (t : Str) (hc : is_all_caps t = true) :
    sentence_case t = joinSep ' ' (scWords true (splitWS t))
    ∧ ∀ (i : Nat) (w : Str), (splitWS t)[i]? = some w →
        (scWords true (splitWS t))[i]? = some
          (if keepWord w then w
           else if sentStartAt (splitWS t) i then capitalizeFirst (lowerW w)
           else lowerW w) := by
  constructor
  · unfold sentence_case
    rw [if_pos hc]
  · intro i w hm
    have h := scWords_getElem? (splitWS t) true i w hm
    cases i with
    | zero => exact h
    | succ j => exact h

/-- C5, counterexample: in the all-caps paragraph
`THE PRESIDENT J.F.K. SPOKE TODAY`, the word `J.F.K.` matches no
`KEEP_UPPER` acronym and is not at a sentence start, yet
`sentence_case` outputs it unchanged instead of lower-casing it to
`j.f.k.` (the `^[A-Z]\.[A-Z]\.?` regex also sets `keep`). -/
theorem sentence_case_initials_counterexample :
    is_all_caps ("THE PRESIDENT J.F.K. SPOKE TODAY".toList) = true
    ∧ keepUpperMatch ("J.F.K.".toList) = false
    ∧ (splitWS ("THE PRESIDENT J.F.K. SPOKE TODAY".toList))[2]? = some ("J.F.K.".toList)
    ∧ sentStartAt (splitWS ("THE PRESIDENT J.F.K. SPOKE TODAY".toList)) 2 = false
    ∧ (scWords true (splitWS ("THE PRESIDENT J.F.K. SPOKE TODAY".toList)))[2]?
        = some ("J.F.K.".toList)
    ∧ lowerW ("J.F.K.".toList) ≠ "J.F.K.".toList
    ∧ sentence_case ("THE PRESIDENT J.F.K. SPOKE TODAY".toList)
        = "The president J.F.K. spoke today".toList := by
  refine ⟨?_, ?_, ?_, ?_, ?_, ?_, ?_⟩ <;> decide

/-- Witness for `sentence_case_words`: in `THE AEC SAID SO`, the
`KEEP_UPPER` word `AEC` at index 1 is output unchanged. -/
theorem sentence_case_words_witness :
    (scWords true (splitWS ("THE AEC SAID SO".toList)))[1]? = some ("AEC".toList) := by
  have h := (sentence_case_words ("THE AEC SAID SO".toList) (by decide)).2 1
    ("AEC".toList) (by decide)
  rw [h]
  decide

/-!  ### `strip_markdown` (C6) -/

theorem noMarkers_spec {s : Str} (h : noMarkers s = true) :
    ∀ c ∈ s, c ≠ '*' ∧ c ≠ '_' ∧ c ≠ bq96 ∧ c ≠ '#' ∧ c ≠ '~' := by
  intro c hc
  have hm := List.all_eq_true.mp h c hc
  unfold mdMarker at hm
  simp only [Bool.not_eq_eq_eq_not, Bool.not_true, decide_eq_false_iff_not] at hm
  tauto

theorem chain'_of_not_mem {d : Char} :
    ∀ {l : List Char}, (∀ c ∈ l, c ≠ d) →
      List.Chain' (fun a b => ¬(a = d ∧ b = d)) l
  | [], _ => List.chain'_nil
  | c :: rest, h => by
    rw [List.chain'_cons']
    refine ⟨?_, chain'_of_not_mem (fun x hx => h x (List.mem_cons_of_mem _ hx))⟩
    intro y _ hcon
    exact h c (by simp) hcon.1

theorem chain'_wrap1 {d : Char} {s : List Char} (hne : s ≠ []) (hs : ∀ c ∈ s, c ≠ d) :
    List.Chain' (fun a b => ¬(a = d ∧ b = d)) (d :: (s ++ [d])) := by
  rw [List.chain'_cons']
  constructor
  · intro y hy hcon
    obtain ⟨x, s', rfl⟩ := List.exists_cons_of_ne_nil hne
    simp only [List.cons_append, List.head?_cons, Option.mem_def, Option.some.injEq] at hy
    exact hs y (by simp [← hy]) hcon.2
  · rw [List.chain'_append]
    refine ⟨chain'_of_not_mem hs, by simp, ?_⟩
    intro x hx y _ hcon
    exact hs x (List.mem_of_getLast?_eq_some (Option.mem_def.mp hx)) hcon.1

theorem subD2F_id {d : Char} :
    ∀ (fuel : Nat) (l : List Char),
      List.Chain' (fun a b => ¬(a = d ∧ b = d)) l → subD2F d fuel l = l
  | 0, l => fun _ => rfl
  | _ + 1, [] => fun _ => rfl
  | fuel + 1, c :: rest => by
    intro h
    have hch := List.chain'_cons'.mp h
    unfold subD2F
    rw [if_neg ?_]
    · rw [subD2F_id fuel rest hch.2]
    · intro hcon
      exact hch.1 d (Option.mem_def.mpr hcon.2) ⟨hcon.1, rfl⟩

theorem subD2_id_of_chain {d : Char} {l : List Char}
    (h : List.Chain' (fun a b => ¬(a = d ∧ b = d)) l) : subD2 d l = l :=
  subD2F_id l.length l h

theorem subD2_id_of_not_mem {d : Char} {l : List Char} (h : ∀ c ∈ l, c ≠ d) :
    subD2 d l = l :=
  subD2_id_of_chain (chain'_of_not_mem h)

theorem subD1LF_id {d : Char} :
    ∀ (fuel : Nat) (prev : Option Char) (l : List Char),
      (∀ c ∈ l, c ≠ d) → subD1LF d fuel prev l = l
  | 0, _, l => fun _ => rfl
  | _ + 1, _, [] => fun _ => rfl
  | fuel + 1, prev, c :: rest => by
    intro h
    unfold subD1LF
    rw [if_neg ?_]
    · rw [subD1LF_id fuel (some c) rest (fun x hx => h x (List.mem_cons_of_mem _ hx))]
    · intro hcon
      exact h c (by simp) hcon.1

theorem subD1L_id {d : Char} {l : List Char} (h : ∀ c ∈ l, c ≠ d) : subD1L d l = l :=
  subD1LF_id l.length none l h

theorem subD1F_id {d : Char} :
    ∀ (fuel : Nat) (l : List Char), (∀ c ∈ l, c ≠ d) → subD1F d fuel l = l
  | 0, l => fun _ => rfl
  | _ + 1, [] => fun _ => rfl
  | fuel + 1, c :: rest => by
    intro h
    unfold subD1F
    rw [if_neg (h c (by simp))]
    rw [subD1F_id fuel rest (fun x hx => h x (List.mem_cons_of_mem _ hx))]

theorem subD1_id {d : Char} {l : List Char} (h : ∀ c ∈ l, c ≠ d) : subD1 d l = l :=
  subD1F_id l.length l h

theorem headingMatch_none {c : Char} {rest : List Char} (hc : c ≠ '#') :
    headingMatch (c :: rest) = none := by
  unfold headingMatch countLeading
  rw [if_neg hc]
  simp

theorem subHeadF_id :
    ∀ (fuel : Nat) (b : Bool) (l : List Char), (∀ c ∈ l, c ≠ '#') → subHeadF fuel b l = l
  | 0, _, l => fun _ => rfl
  | _ + 1, _, [] => fun _ => rfl
  | fuel + 1, b, c :: rest => by
    intro h
    have hrest := fun x hx => h x (List.mem_cons_of_mem _ hx)
    unfold subHeadF
    cases b with
    | false =>
      simp only [Bool.false_eq_true, if_false]
      rw [subHeadF_id fuel _ rest hrest]
    | true =>
      simp only [if_true]
      rw [headingMatch_none (h c (by simp))]
      rw [subHeadF_id fuel _ rest hrest]

theorem subHead_id {l : List Char} (h : ∀ c ∈ l, c ≠ '#') : subHead l = l :=
  subHeadF_id l.length true l h

theorem findClose2_clean {d : Char} :
    ∀ (s : List Char), s ≠ [] → (∀ c ∈ s, c ≠ d ∧ c ≠ '\n') →
      ∀ (acc rest0 : List Char),
        findClose2 d acc (s ++ d :: d :: rest0) = some (acc.reverse ++ s, rest0)
  | [], h, _ => absurd rfl h
  | [x], _, hcl => by
    intro acc rest0
    have hx := hcl x (by simp)
    show findClose2 d acc (x :: (d :: d :: rest0)) = _
    unfold findClose2
    rw [if_neg (fun hcon => hx.1 hcon.1), if_neg hx.2]
    unfold findClose2
    rw [if_pos ⟨rfl, rfl, by simp⟩]
    simp
  | x :: y :: s', h, hcl => by
    intro acc rest0
    have hx := hcl x (by simp)
    show findClose2 d acc (x :: ((y :: s') ++ d :: d :: rest0)) = _
    unfold findClose2
    rw [if_neg (fun hcon => hx.1 hcon.1), if_neg hx.2]
    rw [findClose2_clean (y :: s') (by simp)
      (fun c hc => hcl c (List.mem_cons_of_mem _ hc)) (x :: acc) rest0]
    simp

theorem subD2F_nil {d : Char} : ∀ fuel, subD2F d fuel [] = [] := by
  intro fuel
  cases fuel <;> rfl

theorem subD2_wrap {d : Char} {s : List Char} (hne : s ≠ [])
    (hcl : ∀ c ∈ s, c ≠ d ∧ c ≠ '\n') :
    subD2 d (d :: d :: (s ++ [d, d])) = s := by
  unfold subD2
  rw [show (d :: d :: (s ++ [d, d])).length = (s.length + 3) + 1 from by simp]
  unfold subD2F
  rw [if_pos ⟨rfl, rfl⟩]
  rw [show (d :: (s ++ [d, d])).tail = s ++ d :: d :: [] from rfl]
  rw [findClose2_clean s hne hcl [] []]
  simp [subD2F_nil]

theorem findClose1L_clean {d : Char} :
    ∀ (s : List Char), s ≠ [] → (∀ c ∈ s, c ≠ d ∧ c ≠ '\n') →
      ∀ (acc rest0 : List Char), isWordOpt rest0.head? = false →
        findClose1L d acc (s ++ d :: rest0) = some (acc.reverse ++ s, rest0)
  | [], h, _ => absurd rfl h
  | [x], _, hcl => by
    intro acc rest0 hw
    have hx := hcl x (by simp)
    show findClose1L d acc (x :: (d :: rest0)) = _
    unfold findClose1L
    rw [if_neg (fun hcon => hx.1 hcon.1), if_neg hx.2]
    unfold findClose1L
    rw [if_pos ⟨rfl, by simp, hw⟩]
    simp
  | x :: y :: s', h, hcl => by
    intro acc rest0 hw
    have hx := hcl x (by simp)
    show findClose1L d acc (x :: ((y :: s') ++ d :: rest0)) = _
    unfold findClose1L
    rw [if_neg (fun hcon => hx.1 hcon.1), if_neg hx.2]
    rw [findClose1L_clean (y :: s') (by simp)
      (fun c hc => hcl c (List.mem_cons_of_mem _ hc)) (x :: acc) rest0 hw]
    simp

theorem subD1LF_nil {d : Char} : ∀ fuel prev, subD1LF d fuel prev [] = [] := by
  intro fuel prev
  cases fuel <;> rfl

theorem subD1L_wrap {d : Char} {s : List Char} (hne : s ≠ [])
    (hcl : ∀ c ∈ s, c ≠ d ∧ c ≠ '\n') :
    subD1L d (d :: (s ++ [d])) = s := by
  unfold subD1L
  rw [show (d :: (s ++ [d])).length = (s.length + 1) + 1 from by simp]
  unfold subD1LF
  rw [if_pos ⟨rfl, rfl⟩]
  rw [show s ++ [d] = s ++ d :: [] from rfl]
  rw [findClose1L_clean s hne hcl [] [] rfl]
  simp [subD1LF_nil]

theorem findClose1_clean {d : Char} :
    ∀ (s : List Char), s ≠ [] → (∀ c ∈ s, c ≠ d ∧ c ≠ '\n') →
      ∀ (acc rest0 : List Char),
        findClose1 d acc (s ++ d :: rest0) = some (acc.reverse ++ s, rest0)
  | [], h, _ => absurd rfl h
  | [x], _, hcl => by
    intro acc rest0
    have hx := hcl x (by simp)
    show findClose1 d acc (x :: (d :: rest0)) = _
    unfold findClose1
    rw [if_neg (fun hcon => hx.1 hcon.1), if_neg hx.2]
    unfold findClose1
    rw [if_pos ⟨rfl, by simp⟩]
    simp
  | x :: y :: s', h, hcl => by
    intro acc rest0
    have hx := hcl x (by simp)
    show findClose1 d acc (x :: ((y :: s') ++ d :: rest0)) = _
    unfold findClose1
    rw [if_neg (fun hcon => hx.1 hcon.1), if_neg hx.2]
    rw [findClose1_clean (y :: s') (by simp)
      (fun c hc => hcl c (List.mem_cons_of_mem _ hc)) (x :: acc) rest0]
    simp

theorem subD1F_nil {d : Char} : ∀ fuel, subD1F d fuel [] = [] := by
  intro fuel
  cases fuel <;> rfl

theorem subD1_wrap {d : Char} {s : List Char} (hne : s ≠ [])
    (hcl : ∀ c ∈ s, c ≠ d ∧ c ≠ '\n') :
    subD1 d (d :: (s ++ [d])) = s := by
  unfold subD1
  rw [show (d :: (s ++ [d])).length = (s.length + 1) + 1 from by simp]
  unfold subD1F
  rw [if_pos rfl]
  rw [show s ++ [d] = s ++ d :: [] from rfl]
  rw [findClose1_clean s hne hcl [] []]
  simp [subD1F_nil]

theorem countLeading_replicate_cons {d c : Char} (n : Nat) (hc : c ≠ d) (t : List Char) :
    countLeading d (List.replicate n d ++ c :: t) = n := by
  induction n with
  | zero =>
    simp only [List.replicate, List.nil_append]
    unfold countLeading
    rw [if_neg hc]
  | succ m ih =>
    rw [List.replicate_succ, List.cons_append]
    unfold countLeading
    rw [if_pos rfl, ih]

theorem headingMatch_heading {m : Nat} (h6 : m + 1 ≤ 6) {s : List Char}
    (hhead : ∀ c, s.head? = some c → isPySpace c = false) :
    headingMatch (List.replicate (m + 1) '#' ++ ' ' :: s) = some (false, s) := by
  unfold headingMatch
  rw [countLeading_replicate_cons (m + 1) (by decide) s]
  rw [if_pos ⟨by omega, h6⟩]
  have hdrop : (List.replicate (m + 1) '#' ++ ' ' :: s).drop (m + 1) = ' ' :: s :=
    List.drop_left' (by simp)
  rw [hdrop]
  have hws : (' ' :: s).takeWhile isPySpace = [' '] := by
    rw [List.takeWhile_cons_of_pos (by decide)]
    cases s with
    | nil => rfl
    | cons c s' =>
      rw [List.takeWhile_cons_of_neg]
      simp [hhead c rfl]
  rw [hws]
  rw [if_neg (by simp)]
  simp

theorem subHead_heading {n : Nat} (h1 : 1 ≤ n) (h6 : n ≤ 6) {s : List Char}
    (hs : ∀ c ∈ s, c ≠ '#')
    (hhead : ∀ c, s.head? = some c → isPySpace c = false) :
    subHead (List.replicate n '#' ++ ' ' :: s) = s := by
  obtain ⟨m, rfl⟩ : ∃ m, n = m + 1 := ⟨n - 1, by omega⟩
  unfold subHead
  rw [show List.replicate (m + 1) '#' ++ ' ' :: s
      = '#' :: (List.replicate m '#' ++ ' ' :: s) from by rw [List.replicate_succ]; simp]
  have hlen : ('#' :: (List.replicate m '#' ++ ' ' :: s)).length
      = (m + 1 + s.length) + 1 := by
    simp
    omega
  rw [hlen]
  unfold subHeadF
  rw [if_pos rfl]
  rw [show '#' :: (List.replicate m '#' ++ ' ' :: s)
      = List.replicate (m + 1) '#' ++ ' ' :: s from by rw [List.replicate_succ]; simp]
  rw [headingMatch_heading h6 hhead]
  exact subHeadF_id _ false s hs

/-- C6, amended: for a non-empty, single-line (newline-free) string `s`
containing no markdown marker characters, `strip_markdown` maps
`"**"+s+"**"`, `"*"+s+"*"` and a backtick-quoted `s` to `s`, and removes
a heading prefix of 1-6 `#` plus a space (when `s` does not itself start
with whitespace, which the greedy `\s+` would also swallow); text with
no marker characters at all is returned unchanged.  (The claim is false
without the newline-free restriction: `(.+?)` is compiled without
`re.DOTALL`, so decorated content spanning a newline is never stripped —
see the counterexample.) -/
theorem strip_markdown_spec :
    (∀ s : Str, s ≠ [] → noMarkers s = true → '\n' ∉ s →
      strip_markdown ('*' :: '*' :: (s ++ ['*', '*'])) = s
      ∧ strip_markdown ('*' :: (s ++ ['*'])) = s
      ∧ strip_markdown (bq96 :: (s ++ [bq96])) = s
      ∧ ∀ n, 1 ≤ n → n ≤ 6 → (∀ c, s.head? = some c → isPySpace c = false) →
          strip_markdown (List.replicate n '#' ++ ' ' :: s) = s)
    ∧ (∀ t : Str, noMarkers t = true → strip_markdown t = t) := by
  have hid : ∀ t : Str, noMarkers t = true → strip_markdown t = t := by
    intro t ht
    have hm := noMarkers_spec ht
    have e1 : subD2 '*' t = t := subD2_id_of_not_mem (fun c hc => (hm c hc).1)
    have e2 : subD2 '_' t = t := subD2_id_of_not_mem (fun c hc => (hm c hc).2.1)
    have e3 : subD1L '*' t = t := subD1L_id (fun c hc => (hm c hc).1)
    have e4 : subD1L '_' t = t := subD1L_id (fun c hc => (hm c hc).2.1)
    have e5 : subD1 bq96 t = t := subD1_id (fun c hc => (hm c hc).2.2.1)
    have e6 : subHead t = t := subHead_id (fun c hc => (hm c hc).2.2.2.1)
    have e7 : subD2 '~' t = t := subD2_id_of_not_mem (fun c hc => (hm c hc).2.2.2.2)
    unfold strip_markdown
    rw [e1, e2, e3, e4, e5, e6, e7]
  refine ⟨?_, hid⟩
  intro s hne hnm hnl
  have hm := noMarkers_spec hnm
  have hclean : ∀ d : Char, (∀ c ∈ s, c ≠ d) → ∀ c ∈ s, c ≠ d ∧ c ≠ '\n' :=
    fun d hd c hc => ⟨hd c hc, fun h => hnl (h ▸ hc)⟩
  have s4 : subD1L '_' s = s := subD1L_id (fun c hc => (hm c hc).2.1)
  have s5 : subD1 bq96 s = s := subD1_id (fun c hc => (hm c hc).2.2.1)
  have s6 : subHead s = s := subHead_id (fun c hc => (hm c hc).2.2.2.1)
  have s7 : subD2 '~' s = s := subD2_id_of_not_mem (fun c hc => (hm c hc).2.2.2.2)
  have s3 : subD1L '*' s = s := subD1L_id (fun c hc => (hm c hc).1)
  refine ⟨?_, ?_, ?_, ?_⟩
  · have e1 : subD2 '*' ('*' :: '*' :: (s ++ ['*', '*'])) = s :=
      subD2_wrap hne (hclean '*' (fun c hc => (hm c hc).1))
    have e2 : subD2 '_' s = s := subD2_id_of_not_mem (fun c hc => (hm c hc).2.1)
    unfold strip_markdown
    rw [e1, e2, s3, s4, s5, s6, s7]
  · have hmem1 : ∀ c ∈ ('*' :: (s ++ ['*']) : List Char), c = '*' ∨ c ∈ s := by
      intro c hc
      simp only [List.mem_cons, List.mem_append, List.mem_singleton] at hc
      tauto
    have e1 : subD2 '*' ('*' :: (s ++ ['*'])) = '*' :: (s ++ ['*']) :=
      subD2_id_of_chain (chain'_wrap1 hne (fun c hc => (hm c hc).1))
    have e2 : subD2 '_' ('*' :: (s ++ ['*'])) = '*' :: (s ++ ['*']) :=
      subD2_id_of_not_mem (fun c hc => by
        rcases hmem1 c hc with h | h
        · subst h
          decide
        · exact (hm c h).2.1)
    have e3 : subD1L '*' ('*' :: (s ++ ['*'])) = s :=
      subD1L_wrap hne (hclean '*' (fun c hc => (hm c hc).1))
    unfold strip_markdown
    rw [e1, e2, e3, s4, s5, s6, s7]
  · have hmem2 : ∀ c ∈ (bq96 :: (s ++ [bq96]) : List Char), c = bq96 ∨ c ∈ s := by
      intro c hc
      simp only [List.mem_cons, List.mem_append, List.mem_singleton] at hc
      tauto
    have e1 : subD2 '*' (bq96 :: (s ++ [bq96])) = bq96 :: (s ++ [bq96]) :=
      subD2_id_of_not_mem (fun c hc => by
        rcases hmem2 c hc with h | h
        · subst h
          decide
        · exact (hm c h).1)
    have e2 : subD2 '_' (bq96 :: (s ++ [bq96])) = bq96 :: (s ++ [bq96]) :=
      subD2_id_of_not_mem (fun c hc => by
        rcases hmem2 c hc with h | h
        · subst h
          decide
        · exact (hm c h).2.1)
    have e3 : subD1L '*' (bq96 :: (s ++ [bq96])) = bq96 :: (s ++ [bq96]) :=
      subD1L_id (fun c hc => by
        rcases hmem2 c hc with h | h
        · subst h
          decide
        · exact (hm c h).1)
    have e4 : subD1L '_' (bq96 :: (s ++ [bq96])) = bq96 :: (s ++ [bq96]) :=
      subD1L_id (fun c hc => by
        rcases hmem2 c hc with h | h
        · subst h
          decide
        · exact (hm c h).2.1)
    have e5 : subD1 bq96 (bq96 :: (s ++ [bq96])) = s :=
      subD1_wrap hne (hclean bq96 (fun c hc => (hm c hc).2.2.1))
    unfold strip_markdown
    rw [e1, e2, e3, e4, e5, s6, s7]
  · intro n h1 h6 hhead
    have hmem3 : ∀ c ∈ List.replicate n '#' ++ ' ' :: s, c = '#' ∨ c = ' ' ∨ c ∈ s := by
      intro c hc
      simp only [List.mem_append, List.mem_replicate, List.mem_cons] at hc
      tauto
    have e1 : subD2 '*' (List.replicate n '#' ++ ' ' :: s)
        = List.replicate n '#' ++ ' ' :: s :=
      subD2_id_of_not_mem (fun c hc => by
        rcases hmem3 c hc with h | h | h
        · subst h
          decide
        · subst h
          decide
        · exact (hm c h).1)
    have e2 : subD2 '_' (List.replicate n '#' ++ ' ' :: s)
        = List.replicate n '#' ++ ' ' :: s :=
      subD2_id_of_not_mem (fun c hc => by
        rcases hmem3 c hc with h | h | h
        · subst h
          decide
        · subst h
          decide
        · exact (hm c h).2.1)
    have e3 : subD1L '*' (List.replicate n '#' ++ ' ' :: s)
        = List.replicate n '#' ++ ' ' :: s :=
      subD1L_id (fun c hc => by
        rcases hmem3 c hc with h | h | h
        · subst h
          decide
        · subst h
          decide
        · exact (hm c h).1)
    have e4 : subD1L '_' (List.replicate n '#' ++ ' ' :: s)
        = List.replicate n '#' ++ ' ' :: s :=
      subD1L_id (fun c hc => by
        rcases hmem3 c hc with h | h | h
        · subst h
          decide
        · subst h
          decide
        · exact (hm c h).2.1)
    have e5 : subD1 bq96 (List.replicate n '#' ++ ' ' :: s)
        = List.replicate n '#' ++ ' ' :: s :=
      subD1_id (fun c hc => by
        rcases hmem3 c hc with h | h | h
        · subst h
          decide
        · subst h
          decide
        · exact (hm c h).2.2.1)
    have e6 : subHead (List.replicate n '#' ++ ' ' :: s) = s :=
      subHead_heading h1 h6 (fun c hc => (hm c hc).2.2.2.1) hhead
    unfold strip_markdown
    rw [e1, e2, e3, e4, e5, e6, s7]

/-- C6, counterexample: `**a\nb**` is returned unchanged — `(.+?)` does
not match across the newline, so the bold decorators are not stripped,
refuting the claim for content containing a newline. -/
theorem strip_markdown_newline_counterexample :
    strip_markdown ("**a\nb**".toList) = "**a\nb**".toList
    ∧ "**a\nb**".toList ≠ "a\nb".toList := by
  constructor
  · decide
  · decide

/-- Witness for `strip_markdown_spec` on `abc`: bold stripping, heading
stripping, and marker-free identity at concrete inputs. -/
theorem strip_markdown_spec_witness :
    strip_markdown ("**abc**".toList) = "abc".toList
    ∧ strip_markdown ("## abc".toList) = "abc".toList
    ∧ strip_markdown ("plain text".toList) = "plain text".toList := by
  refine ⟨?_, ?_, ?_⟩
  · have h1 := (strip_markdown_spec.1 ("abc".toList) (by decide) (by decide) (by decide)).1
    rw [show ("**abc**".toList : List Char)
        = '*' :: '*' :: ("abc".toList ++ ['*', '*']) from by decide]
    exact h1
  · have h2 := (strip_markdown_spec.1 ("abc".toList) (by decide) (by decide)
      (by decide)).2.2.2 2 (by decide) (by decide) (by decide)
    rw [show ("## abc".toList : List Char)
        = List.replicate 2 '#' ++ ' ' :: "abc".toList from by decide]
    exact h2
  · exact strip_markdown_spec.2 ("plain text".toList) (by decide)

/-!  ### `format_ocr_text` (C10) -/

theorem mem_replaceChar {x : Char} {rep : List Char} {c : Char} :
    ∀ {l : List Char}, c ∈ replaceChar x rep l → c ∈ rep ∨ (c ∈ l ∧ c ≠ x)
  | [], h => by simp [replaceChar] at h
  | y :: ys, h => by
    unfold replaceChar at h
    by_cases hy : y = x
    · rw [if_pos hy] at h
      rcases List.mem_append.mp h with h1 | h1
      · exact Or.inl h1
      · rcases mem_replaceChar h1 with h2 | ⟨h2, h3⟩
        · exact Or.inl h2
        · exact Or.inr ⟨List.mem_cons_of_mem _ h2, h3⟩
    · rw [if_neg hy] at h
      rcases List.mem_cons.mp h with h1 | h1
      · exact Or.inr ⟨by simp [h1], by rw [h1]; exact hy⟩
      · rcases mem_replaceChar h1 with h2 | ⟨h2, h3⟩
        · exact Or.inl h2
        · exact Or.inr ⟨List.mem_cons_of_mem _ h2, h3⟩

theorem not_mem_escapeHtml_lt (t : List Char) : '<' ∉ escapeHtml t := by
  intro h
  unfold escapeHtml at h
  rcases mem_replaceChar h with h1 | ⟨h1, _⟩
  · revert h1
    decide
  rcases mem_replaceChar h1 with h2 | ⟨h2, _⟩
  · revert h2
    decide
  rcases mem_replaceChar h2 with h3 | ⟨h3, _⟩
  · revert h3
    decide
  rcases mem_replaceChar h3 with h4 | ⟨h4, hne⟩
  · revert h4
    decide
  · exact hne rfl

theorem not_mem_brReplace_nl (m : List Char) : '\n' ∉ brReplace m := by
  intro h
  unfold brReplace at h
  rcases mem_replaceChar h with h1 | ⟨_, hne⟩
  · revert h1
    decide
  · exact hne rfl

theorem ltOnlyBr_brReplace : ∀ {m : List Char}, '<' ∉ m → ltOnlyBr (brReplace m) = true
  | [], _ => rfl
  | x :: xs, h => by
    have hx : x ≠ '<' := fun hc => h (by simp [hc])
    have IH := ltOnlyBr_brReplace (fun hc => h (List.mem_cons_of_mem _ hc))
    unfold brReplace at IH ⊢
    unfold replaceChar
    by_cases hnl : x = '\n'
    · rw [if_pos hnl]
      show ltOnlyBr ('<' :: 'b' :: 'r' :: '>' :: replaceChar '\n' ("<br>".toList) xs) = true
      unfold ltOnlyBr
      rw [if_pos rfl]
      exact IH
    · rw [if_neg hnl]
      unfold ltOnlyBr
      rw [if_neg hx]
      exact IH

theorem formatParts_shape {raw : Str} {part : Str} (h : part ∈ formatParts raw) :
    ∃ body, part = "<p>".toList ++ body ++ "</p>".toList
      ∧ '\n' ∉ body ∧ ltOnlyBr body = true := by
  unfold formatParts at h
  obtain ⟨p0, _, hsome⟩ := List.mem_filterMap.mp h
  have hsome' : (if pyStrip p0 = [] then none
      else some ("<p>".toList ++ brReplace (escapeHtml (pyStrip p0)) ++ "</p>".toList))
      = some part := hsome
  by_cases ht : pyStrip p0 = []
  · rw [if_pos ht] at hsome'
    exact absurd hsome' (by simp)
  · rw [if_neg ht] at hsome'
    have hpart := Option.some.inj hsome'
    refine ⟨brReplace (escapeHtml (pyStrip p0)), hpart.symm, ?_, ?_⟩
    · exact not_mem_brReplace_nl _
    · exact ltOnlyBr_brReplace (not_mem_escapeHtml_lt _)

theorem joinSep_cons (sep : Char) (x : Str) (xs : List Str) :
    ∃ r, joinSep sep (x :: xs) = x ++ r := by
  cases xs with
  | nil => exact ⟨[], by simp [joinSep]⟩
  | cons y ys => exact ⟨sep :: joinSep sep (y :: ys), rfl⟩

/-- C10: `format_ocr_text` returns the fixed italic placeholder exactly
when its input strips to empty; on every other input the output is the
newline-join of `<p>...</p>` parts whose bodies contain no newline and
in which the only `<` characters open the inserted `<br>` tags — the
input's `&`, `<`, `>` having been escaped, raw OCR text can never
introduce an HTML tag into the page. -/
theorem format_ocr_text_spec (raw : Str) :
    (format_ocr_text raw = ocrPlaceholder ↔ pyStrip raw = [])
    ∧ (pyStrip raw ≠ [] →
        format_ocr_text raw = joinSep '\n' (formatParts raw)
        ∧ ∀ part ∈ formatParts raw,
            ∃ body, part = "<p>".toList ++ body ++ "</p>".toList
              ∧ '\n' ∉ body ∧ ltOnlyBr body = true) := by
  constructor
  · constructor
    · intro h
      by_contra hne
      rw [show format_ocr_text raw = joinSep '\n' (formatParts raw) from by
        unfold format_ocr_text
        rw [if_neg hne]] at h
      cases hp : formatParts raw with
      | nil =>
        rw [hp] at h
        revert h
        decide
      | cons part rest =>
        have hmem : part ∈ formatParts raw := by
          rw [hp]
          simp
        obtain ⟨body, hbody, _, _⟩ := formatParts_shape hmem
        rw [hp] at h
        obtain ⟨r, hr⟩ := joinSep_cons '\n' part rest
        rw [hr, hbody] at h
        have h2 := congrArg (fun l : List Char => l[2]?) h
        revert h2
        simp
        intro h2
        exact absurd h2 (by decide)
    · intro h
      unfold format_ocr_text
      rw [if_pos h]
  · intro hne
    constructor
    · unfold format_ocr_text
      rw [if_neg hne]
    · intro part hp
      exact formatParts_shape hp

/-- Witness for `format_ocr_text_spec`: a whitespace-only input yields
the placeholder, and a non-empty input yields the joined `<p>` parts. -/
theorem format_ocr_text_spec_witness :
    format_ocr_text ("   ".toList) = ocrPlaceholder
    ∧ format_ocr_text ("Hello there".toList)
        = joinSep '\n' (formatParts ("Hello there".toList)) :=
  ⟨(format_ocr_text_spec ("   ".toList)).1.mpr (by decide),
   ((format_ocr_text_spec ("Hello there".toList)).2 (by decide)).1⟩
